import Mathlib

/-!
# ShapedBrightnessController

A shallow embedding of `ShapedBrightnessController.cpp` / `.h` (an AVR / Arduino
library that drives a bank of LEDs through a PCA9685 PWM device) and theorems about
its configuration setters, its 4-byte pattern encoding and its `tick` evaluation.

Conventions of the embedding

* `int` is the 16-bit signed integer of the AVR target.  Values are kept in `Int`
  and every `int` result that could leave the 16-bit range is passed through
  `int16` (two's complement wrap-around, which is what avr-gcc produces).
* `uint8_t` values (`led`, `shape`, `_cycle[i]`, the pattern bytes) are kept in
  `Nat`; an increment is taken modulo 256.
* The parallel member arrays `_counter[]`, `_phase[]`, ... are gathered in one
  record `Led` per index; `Bank.leds i` is the group of array cells with index `i`.
* `for(int i=0; i<_numLeds; i++)` is `forLeds`, a left fold over `0, 1, ..., _numLeds-1`.
* The PWM device is an external collaborator: `tick` returns the list of the
  `_pwm.SetBrightness(output, i)` calls it makes, in order, as pairs `(output, i)`.
* `random()` of the C library is external: `tick` receives the sequence `rnd` of
  raw values it would return, and `random(255)` is `rnd k % 255`.
-/

namespace SBC

/-! ## Constants of the header -/

/-- Number of LED slots in each member array (`#define SBC_MAX_LEDS 9`). -/
def SBC_MAX_LEDS : Nat := 9

def SBC_WAVESHAPE_OFF : Nat := 0
def SBC_WAVESHAPE_SAW : Nat := 1
def SBC_WAVESHAPE_TRI : Nat := 2
def SBC_WAVESHAPE_SQU : Nat := 3
def SBC_WAVESHAPE_PULSE : Nat := 4
def SBC_WAVESHAPE_HUMP : Nat := 5
def SBC_WAVESHAPE_SPIKE : Nat := 6
def SBC_WAVESHAPE_ON : Nat := 7

/-- Modelled from the spec: `SBC_WAVESHAPE_RND` is used by `tick` but the header under
`src/` does not define it; the spec states that the RANDOM waveform reuses the HUMP
selector value, which is 5. -/
def SBC_WAVESHAPE_RND : Nat := 5

def SBC_WSMOD_INVERT : Nat := 8
def SBC_WSMOD_MISS1 : Nat := 16
def SBC_WSMOD_MISS2 : Nat := 32

def SBC_TG_GATECHANGE : Nat := 0
def SBC_TG_GATEOUT : Nat := 64
def SBC_TG_1SHOT : Nat := 128

/-! ## Machine arithmetic and library helpers -/

/-- Wrap an integer into the range of the 16-bit signed `int` of the target. -/
def int16 (x : Int) : Int := (x + 32768) % 65536 - 32768

/-- The right shift `x >> n` of a signed integer as avr-gcc compiles it (arithmetic
shift, rounding towards minus infinity). -/
def shr (x : Int) (n : Nat) : Int := Int.shiftRight x n

/-- Arduino `highByte(w)`, that is `(uint8_t)((w) >> 8)`. -/
def highByte (w : Int) : Nat := (shr w 8 % 256).toNat

/-- Arduino `lowByte(w)`, that is `(uint8_t)((w) & 0xff)`. -/
def lowByte (w : Int) : Nat := (w % 256).toNat

/-- Arduino `random(howbig)`: `0` when `howbig` is `0`, else `random() % howbig`,
where `raw` is the value returned by the C library `random()`. -/
def random (howbig : Int) (raw : Nat) : Int :=
  if howbig = 0 then 0 else Int.tmod (raw : Int) howbig

/-- The call `pow(x, 2)` of the maths library converted to `long`, taken at its exact
value `x * x`. -/
def pow2 (x : Int) : Int := x * x

/-! ## State -/

/-- The cells with one index `i` of the member arrays `_counter`, `_phase`, `_shape`,
`_rate`, `_scale`, `_triggerIP`, `_prevTriggerIP`, `_cycle` and `_changeEnable`.
`_prevTriggerIP` is used by `tick` but not declared in the header; it is taken to be an
`int` array like `_triggerIP`.  The array `_prescale` of the header is used nowhere. -/
structure Led where
  counter : Int
  phase : Int
  shape : Nat
  rate : Int
  scale : Int
  triggerIP : Int
  prevTriggerIP : Int
  cycle : Nat
  changeEnable : Bool
deriving DecidableEq, Repr

/-- The object state: `_numLeds` and the member arrays, indexed by LED.  The arrays of
the program have `SBC_MAX_LEDS` cells; the methods that reduce `led` modulo `_numLeds`
and the loops of `tick` only reach indices below `_numLeds`. -/
structure Bank where
  numLeds : Nat
  leds : Nat → Led

/-- Assignment to the array cells with index `i`. -/
def Bank.setLed (b : Bank) (i : Nat) (l : Led) : Bank :=
  { b with leds := Function.update b.leds i l }

/-- The loop `for(int i=0; i<n; i++) body`. -/
def forLeds {σ : Type} (n : Nat) (body : σ → Nat → σ) (init : σ) : σ :=
  (List.range n).foldl body init

/-! ## Constructor and setters -/

/-- Body of the constructor's loop for one LED: the cells it writes.  `_phase[i]` and
`_prevTriggerIP[i]` are not written. -/
def initLed (l : Led) : Led :=
  { l with
    counter := 0, shape := 0, rate := 0, scale := 0, triggerIP := 0, cycle := 0,
    changeEnable := false }

/-- The constructor.  `mem` is the content of the object's memory before construction:
the constructor writes neither `_phase[]` nor `_prevTriggerIP[]`, nor any cell with an
index of `_numLeds` or more. -/
def ShapedBrightnessController (mem : Bank) (numLeds : Nat) : Bank :=
  let n := if numLeds < SBC_MAX_LEDS then numLeds else SBC_MAX_LEDS
  forLeds n (fun b i => b.setLed i (initLed (b.leds i))) { mem with numLeds := n }

/-- The statement `led=led%_numLeds;` which opens every setter: a division by zero
(no result) when `_numLeds` is `0`. -/
def ledIndex (b : Bank) (led : Nat) : Option Nat :=
  if b.numLeds = 0 then none else some (led % b.numLeds)

/-- Method `setRate`: `_rate[led] = val>>2`. -/
def setRate (b : Bank) (led : Nat) (val : Int) : Option Bank :=
  (ledIndex b led).map fun i => b.setLed i { b.leds i with rate := shr val 2 }

/-- Method `setScale`: `_scale[led]=val>>2`. -/
def setScale (b : Bank) (led : Nat) (val : Int) : Option Bank :=
  (ledIndex b led).map fun i => b.setLed i { b.leds i with scale := shr val 2 }

/-- Method `setTriggerIP`: `_triggerIP[led]=val`. -/
def setTriggerIP (b : Bank) (led : Nat) (val : Int) : Option Bank :=
  (ledIndex b led).map fun i => b.setLed i { b.leds i with triggerIP := val }

/-- Method `setPattern`; `phase%2048` is the remainder of C, which has the sign of
`phase`. -/
def setPattern (b : Bank) (led : Nat) (shape : Nat) (phase : Int) : Option Bank :=
  (ledIndex b led).map fun i =>
    let phase := Int.tmod phase 2048
    b.setLed i
      { b.leds i with
        shape := shape, phase := phase, counter := phase, cycle := 0, changeEnable := false }

/-- The four bytes written to `patternProg`.  The index `led` is used as it is. -/
def getPatternProgBytes (b : Bank) (led : Nat) : List Nat :=
  [(b.leds led).shape, 0, highByte (b.leds led).phase, lowByte (b.leds led).phase]

/-- Reads `patternProg[0]`, `[2]` and `[3]` of a 4-byte array. -/
def setPatternFromProgBytes (b : Bank) (led : Nat) (patternProg : List Nat) : Option Bank :=
  setPattern b led (patternProg.getD 0 0)
    (int16 (int16 ((patternProg.getD 2 0 : Nat) * 256) + (patternProg.getD 3 0 : Nat)))

/-! ## tick -/

/-- The test `_shape[i] & mask` used as a condition. -/
def hasBits (shape mask : Nat) : Bool := shape &&& mask != 0

/-- Body of the first loop of `tick` for one LED: trigger latch or gate level. -/
def gateLed (l : Led) : Led :=
  if hasBits l.shape SBC_TG_1SHOT then
    { l with
      changeEnable :=
        l.changeEnable || (decide (l.triggerIP ≥ 512) && decide (l.prevTriggerIP < 512)),
      prevTriggerIP := l.triggerIP }
  else
    { l with changeEnable := decide (l.triggerIP ≥ 512) }

/-- Body of the second loop of `tick` for one LED: the new cells and whether the
statement `cycled = true` was executed. -/
def advanceLed (l : Led) : Led × Bool :=
  if l.changeEnable then
    let r := l.rate
    let c := int16 (l.counter + r)
    if c ≥ 2048 then
      let c := c - 2048
      if (l.shape &&& (SBC_WSMOD_MISS2 + SBC_WSMOD_MISS1)) > 0 then
        let cycleLength :=
          (if hasBits l.shape SBC_WSMOD_MISS2 then 2 else 0)
            + (if hasBits l.shape SBC_WSMOD_MISS1 then 1 else 0)
        if l.cycle = cycleLength then
          ({ l with
             cycle := 0,
             changeEnable := if hasBits l.shape SBC_TG_1SHOT then false else l.changeEnable,
             counter := c }, true)
        else
          ({ l with cycle := (l.cycle + 1) % 256, counter := c }, true)
      else
        ({ l with
           cycle := 0,
           changeEnable := if hasBits l.shape SBC_TG_1SHOT then false else l.changeEnable,
           counter := c }, true)
    else
      ({ l with counter := c }, false)
  else
    (l, false)

/-- The condition of the output override to 0 in the third loop. -/
def outputOverride (l : Led) : Bool :=
  (hasBits l.shape SBC_TG_1SHOT && !l.changeEnable)
    || ((l.shape &&& (SBC_TG_1SHOT + SBC_TG_GATEOUT) == SBC_TG_GATEOUT) && !l.changeEnable)
    || (l.cycle != 0)

/-- The `switch` on `_shape[i]&0x07`: the new value of `base`, or `none` when
`updateOut` is set to `false` (then `base` keeps its previous value and the output
computed from it is not sent). -/
def waveBase (l : Led) (cycled : Bool) (raw : Nat) : Option Int :=
  let w := l.shape &&& 7
  if w = SBC_WAVESHAPE_OFF then some 0
  else if w = SBC_WAVESHAPE_SAW then some (shr l.counter 3)
  else if w = SBC_WAVESHAPE_TRI then
    if l.counter < 1024 then some (shr l.counter 2)
    else some (shr (int16 (2047 - l.counter)) 2)
  else if w = SBC_WAVESHAPE_SQU then
    if l.counter < 1024 then some 255 else some 0
  else if w = SBC_WAVESHAPE_PULSE then
    if l.counter < 410 then some 255 else some 0
  else if w = SBC_WAVESHAPE_SPIKE then
    let base :=
      if l.counter < 1024 then pow2 (shr l.counter 6)
      else pow2 (int16 (31 - shr l.counter 6))
    some (if base > 255 then 255 else base)
  else if w = SBC_WAVESHAPE_RND then
    if cycled then some (random 255 raw) else none
  else if w = SBC_WAVESHAPE_ON then some 255
  else some 0

/-- Scaling, inversion and the floor boost applied to `base`. -/
def shapeOutput (l : Led) (base : Int) : Int :=
  let output := int16 (shr (base * l.scale) 8)
  let output := if hasBits l.shape SBC_WSMOD_INVERT then int16 (255 - output) else output
  if output = 0 then 1 else output

/-- Body of the third loop for one LED: the value passed to `_pwm.SetBrightness`, or
`none` when nothing is sent. -/
def ledOutput (l : Led) (cycled : Bool) (raw : Nat) : Option Int :=
  if outputOverride l then some 0
  else (waveBase l cycled raw).map (shapeOutput l)

/-- Whether the third loop calls `random(255)` for this LED. -/
def drawsRandom (l : Led) (cycled : Bool) : Bool :=
  !outputOverride l && decide (l.shape &&& 7 = SBC_WAVESHAPE_RND) && cycled

/-- Body of the first loop of `tick`. -/
def gateBody (b : Bank) (i : Nat) : Bank :=
  b.setLed i (gateLed (b.leds i))

/-- Body of the second loop of `tick`; the second component is the local `cycled`. -/
def advanceBody (st : Bank × Bool) (i : Nat) : Bank × Bool :=
  (st.1.setLed i (advanceLed (st.1.leds i)).1, st.2 || (advanceLed (st.1.leds i)).2)

/-- Body of the third loop of `tick`: the `SetBrightness(output, i)` calls made so far
and the number of `random` calls made so far. -/
def outputBody (b : Bank) (cycled : Bool) (rnd : Nat → Nat)
    (st : List (Int × Nat) × Nat) (i : Nat) : List (Int × Nat) × Nat :=
  ((match ledOutput (b.leds i) cycled (rnd st.2) with
    | some output => st.1 ++ [(output, i)]
    | none => st.1),
   if drawsRandom (b.leds i) cycled then st.2 + 1 else st.2)

/-- First loop of `tick`. -/
def tickGate (b : Bank) : Bank :=
  forLeds b.numLeds gateBody b

/-- Second loop of `tick`, started with `cycled = false`. -/
def tickAdvance (b : Bank) : Bank × Bool :=
  forLeds b.numLeds advanceBody (b, false)

/-- Third loop of `tick`. -/
def tickOutput (b : Bank) (cycled : Bool) (rnd : Nat → Nat) : List (Int × Nat) × Nat :=
  forLeds b.numLeds (outputBody b cycled rnd) ([], 0)

/-- One call of `tick()`: the new state and the `SetBrightness(output, i)` calls. -/
def tick (b : Bank) (rnd : Nat → Nat) : Bank × List (Int × Nat) :=
  let b1 := tickGate b
  let st := tickAdvance b1
  (st.1, (tickOutput st.1 st.2 rnd).1)

/-- The brightness values sent for LED `i` among the calls `calls`. -/
def sentTo (calls : List (Int × Nat)) (i : Nat) : List Int :=
  (calls.filter fun c => c.2 == i).map Prod.fst

/-! ## Sequences of calls -/

/-- A call of a public method by the driving sketch. -/
inductive Call where
  | setRate (led : Nat) (val : Int)
  | setScale (led : Nat) (val : Int)
  | setTriggerIP (led : Nat) (val : Int)
  | setPattern (led : Nat) (shape : Nat) (phase : Int)
  | tick (rnd : Nat → Nat)

/-- The state after one call, `none` when the call divides by zero. -/
def step (b : Bank) : Call → Option Bank
  | .setRate led val => setRate b led val
  | .setScale led val => setScale b led val
  | .setTriggerIP led val => setTriggerIP b led val
  | .setPattern led shape phase => setPattern b led shape phase
  | .tick rnd => some (tick b rnd).1

/-- The state after a sequence of calls. -/
def run (b : Bank) : List Call → Option Bank
  | [] => some b
  | c :: cs => (step b c).bind fun b1 => run b1 cs

/-! ## Vocabulary of the statements -/

/-- State of one LED after a `tick` (first and second loop). -/
def tickLed (l : Led) : Led := (advanceLed (gateLed l)).1

/-- Whether the counter of a LED in state `l` reaches 2048 in the next `tick`, that is
whether the branch `if(c>=2048)` is taken for it. -/
def wraps (l : Led) : Bool := (advanceLed (gateLed l)).2

/-- The value of the local variable `cycled` when the third loop of `tick` starts. -/
def cycledOf (b : Bank) : Bool := (tickAdvance (tickGate b)).2

/-- Number of `random` calls the third loop makes before it reaches LED `i`. -/
def drawsBefore (b : Bank) (cycled : Bool) (i : Nat) : Nat :=
  ((List.range i).filter fun j => drawsRandom (b.leds j) cycled).length

/-- The value `cycleLength` computed in the second loop: 2 for MISS2 plus 1 for MISS1. -/
def missLen (shape : Nat) : Nat :=
  (if hasBits shape SBC_WSMOD_MISS2 then 2 else 0)
    + (if hasBits shape SBC_WSMOD_MISS1 then 1 else 0)

/-- The three situations in which the output is overridden to 0, as the comment in
`tick` lists them: (a) one-shot and no shot in progress, (b) GATEOUT without one-shot
and gate closed, (c) a miss cycle. -/
def OverrideCase (l : Led) : Prop :=
  (hasBits l.shape SBC_TG_1SHOT = true ∧ l.changeEnable = false)
    ∨ (hasBits l.shape SBC_TG_GATEOUT = true ∧ hasBits l.shape SBC_TG_1SHOT = false
        ∧ l.changeEnable = false)
    ∨ l.cycle ≠ 0

/-- The effect of a call on the cells of LED `i` of a bank of `n` LEDs, `0 < n`. -/
def Call.onLed (n i : Nat) (c : Call) (l : Led) : Led :=
  match c with
  | .setRate led val => if led % n = i then { l with rate := shr val 2 } else l
  | .setScale led val => if led % n = i then { l with scale := shr val 2 } else l
  | .setTriggerIP led val => if led % n = i then { l with triggerIP := val } else l
  | .setPattern led shape phase =>
    if led % n = i then
      { l with
        shape := shape, phase := Int.tmod phase 2048, counter := Int.tmod phase 2048,
        cycle := 0, changeEnable := false }
    else l
  | .tick _ => tickLed l

instance (l : Led) : Decidable (OverrideCase l) := by
  unfold OverrideCase
  infer_instance

/-- The call is `setPattern` for the LED with index `i` of a bank of `n` LEDs. -/
def Call.setsPatternOf (n i : Nat) : Call → Bool
  | .setPattern led _ _ => led % n == i
  | _ => false

/-- The call is not a `setTriggerIP` that writes a value below 512 to LED `i`. -/
def Call.keepsTriggerHigh (n i : Nat) : Call → Bool
  | .setTriggerIP led val => led % n != i || decide (512 ≤ val)
  | _ => true

/-- The argument ranges of claim C1: `setRate` values in 0..1023, `setPattern` phases
not negative. -/
def Call.counterSafe : Call → Bool
  | .setRate _ val => decide (0 ≤ val) && decide (val ≤ 1023)
  | .setPattern _ _ phase => decide (0 ≤ phase)
  | _ => true

/-- The documented argument ranges: control values in 0..1023, phases in 0..2047. -/
def Call.inRange : Call → Bool
  | .setRate _ val => decide (0 ≤ val) && decide (val ≤ 1023)
  | .setScale _ val => decide (0 ≤ val) && decide (val ≤ 1023)
  | .setTriggerIP _ val => decide (0 ≤ val) && decide (val ≤ 1023)
  | .setPattern _ _ phase => decide (0 ≤ phase) && decide (phase ≤ 2047)
  | .tick _ => true

/-- The call is a call of `tick`. -/
def Call.isTick : Call → Bool
  | .tick _ => true
  | _ => false

/-- Number of calls of `tick` in the sequence during which the counter of LED `i`
reaches 2048. -/
def wrapCount (b : Bank) (i : Nat) : List Call → Nat
  | [] => 0
  | c :: cs =>
    (if c.isTick && decide (i < b.numLeds) && wraps (b.leds i) then 1 else 0)
    + (match step b c with
      | some b1 => wrapCount b1 i cs
      | none => 0)

/-- The range invariant behind C1: counter in 0..2047 and rate in 0..255 for every LED
of the bank. -/
def CounterInv (b : Bank) : Prop :=
  ∀ i, i < b.numLeds →
    (0 ≤ (b.leds i).counter ∧ (b.leds i).counter ≤ 2047)
    ∧ (0 ≤ (b.leds i).rate ∧ (b.leds i).rate ≤ 255)

/-- Every stored scale of the bank lies in 0..255. -/
def ScaleInv (b : Bank) : Prop :=
  ∀ i, i < b.numLeds → 0 ≤ (b.leds i).scale ∧ (b.leds i).scale ≤ 255

/-! ## Concrete states used as examples -/

/-- Memory filled with zeros. -/
def zeroMem : Bank := ⟨0, fun _ => ⟨0, 0, 0, 0, 0, 0, 0, 0, false⟩⟩

/-- A source of random numbers that always returns 100. -/
def rnd100 : Nat → Nat := fun _ => 100

/-- A call sequence within the argument ranges of C1 that wraps the counter of LED 1. -/
def c1Calls : List Call :=
  [.setRate 1 1023, .setPattern 1 1 2047, .setTriggerIP 1 600, .tick rnd100, .tick rnd100]

/-- A call sequence within the documented ranges: LED 1 runs an inverted saw tooth. -/
def c6Calls : List Call :=
  [.setRate 1 1023, .setScale 1 1023, .setPattern 1 9 2047, .setTriggerIP 1 600,
   .tick rnd100]


/-- LED 0 is a one-shot saw tooth that was never triggered, LED 1 a square wave with
its gate open. -/
def c7Bank : Bank :=
  (run (ShapedBrightnessController zeroMem 2)
    [.setPattern 0 129 0, .setPattern 1 3 0, .setScale 1 1023, .setTriggerIP 1 600]).getD
    zeroMem

/-- LED 0 is always ON, one step before its counter reaches 2048, with its gate open;
LED 1 has the RANDOM waveform, full scale and its gate closed, so its counter stands
still. -/
def c8Bank : Bank :=
  (run (ShapedBrightnessController zeroMem 2)
    [.setPattern 0 7 2047, .setRate 0 4, .setTriggerIP 0 512, .setPattern 1 5 0,
     .setScale 1 1023]).getD
    zeroMem

/-- A single one-shot LED (saw tooth, MISS1) with rate 1024, never triggered so far,
whose trigger value has just been raised to 600. -/
def c9Bank : Bank :=
  (run (ShapedBrightnessController zeroMem 1)
    [.setPattern 0 145 0, .setRate 0 4096, .setTriggerIP 0 600]).getD
    zeroMem

/-- A single one-shot LED (saw tooth, full scale) with rate 1024, never triggered so
far, whose trigger value has just been raised to 600. -/
def c10Bank : Bank :=
  (run (ShapedBrightnessController zeroMem 1)
    [.setPattern 0 129 0, .setRate 0 4096, .setScale 0 1023, .setTriggerIP 0 600]).getD
    zeroMem

/-- The call is not a `setTriggerIP` that writes a value of 512 or more to LED `i`. -/
def Call.keepsTriggerLow (n i : Nat) : Call → Bool
  | .setTriggerIP led val => led % n != i || decide (val < 512)
  | _ => true

/-- A bank of two LEDs whose memory was zero before construction. -/
def twoLeds : Bank := ShapedBrightnessController zeroMem 2

/-- Calls after `setPattern(1, SQUARE+MISS1, 0)`: full rate and scale, gate open, and
eight ticks, which is one cycle of the counter (8 * 255 = 2040, the ninth tick wraps). -/
def c11Calls : List Call :=
  [.setRate 1 1023, .setScale 1 1023, .setTriggerIP 1 600,
   .tick rnd100, .tick rnd100, .tick rnd100, .tick rnd100,
   .tick rnd100, .tick rnd100, .tick rnd100, .tick rnd100]

/-- A bank of one LED running SQUARE+GATEOUT at rate 255 whose gate has been open for
three ticks (counter 765) and whose trigger value has just been lowered to 100. -/
def c12Bank : Bank :=
  (run (ShapedBrightnessController zeroMem 1)
    [.setPattern 0 67 0, .setRate 0 1023, .setScale 0 1023, .setTriggerIP 0 600,
     .tick rnd100, .tick rnd100, .tick rnd100, .setTriggerIP 0 100]).getD
    zeroMem

/-- A LED with a plain saw tooth at counter 1000 and scale 200, its gate open. -/
def sawLed : Led := ⟨1000, 0, 1, 255, 200, 600, 0, 0, true⟩

/-- The LED `sawLed` with the INVERT bit added to its shape. -/
def sawLedInverted : Led := { sawLed with shape := 9 }

/-- A LED with the SPIKE waveform at counter 1500, its gate open. -/
def spikeLed : Led := ⟨1500, 0, 6, 255, 255, 600, 0, 0, true⟩

/-- A single one-shot LED (saw tooth, full scale) with rate 1024 whose trigger value
has just been raised to 600 for the first time. -/
def c16Bank : Bank :=
  (run (ShapedBrightnessController zeroMem 1)
    [.setPattern 0 129 0, .setRate 0 4096, .setScale 0 1023, .setTriggerIP 0 600]).getD
    zeroMem

/-- The bank `twoLeds` after `setPattern(3, SAW+INVERT, 100)`, which writes LED 1. -/
def c19Bank : Bank := (setPattern twoLeds 3 9 100).getD zeroMem

/-! ## Loops -/

theorem forLeds_zero {σ : Type} (body : σ → Nat → σ) (init : σ) :
    forLeds 0 body init = init := by
  simp [forLeds]

theorem forLeds_succ {σ : Type} (n : Nat) (body : σ → Nat → σ) (init : σ) :
    forLeds (n + 1) body init = body (forLeds n body init) n := by
  simp [forLeds, List.range_succ, List.foldl_append]

theorem setLed_numLeds (b : Bank) (i : Nat) (l : Led) :
    (b.setLed i l).numLeds = b.numLeds := rfl

theorem setLed_leds (b : Bank) (i j : Nat) (l : Led) :
    (b.setLed i l).leds j = if j = i then l else b.leds j := by
  simp [Bank.setLed, Function.update_apply]

/-- A loop that rewrites the cells of each LED from their own old value acts on every
index below the bound and on no other. -/
theorem forLeds_map (f : Led → Led) (n : Nat) (b : Bank) :
    (forLeds n (fun b i => b.setLed i (f (b.leds i))) b).numLeds = b.numLeds
    ∧ ∀ j, (forLeds n (fun b i => b.setLed i (f (b.leds i))) b).leds j
        = if j < n then f (b.leds j) else b.leds j := by
  induction n with
  | zero => simp [forLeds_zero]
  | succ n ih =>
    obtain ⟨ih1, ih2⟩ := ih
    rw [forLeds_succ]
    refine ⟨by rw [setLed_numLeds, ih1], fun j => ?_⟩
    rw [setLed_leds]
    by_cases h : j = n
    · subst h
      simp [ih2]
    · rw [if_neg h, ih2]
      by_cases h2 : j < n
      · simp [h2, Nat.lt_succ_of_lt h2]
      · have : ¬ j < n + 1 := by omega
        simp [h2, this]

theorem advanceLoop_spec (n : Nat) (b : Bank) :
    (forLeds n advanceBody (b, false)).1.numLeds = b.numLeds
    ∧ (∀ j, (forLeds n advanceBody (b, false)).1.leds j
        = if j < n then (advanceLed (b.leds j)).1 else b.leds j)
    ∧ ((forLeds n advanceBody (b, false)).2 = true
        ↔ ∃ j, j < n ∧ (advanceLed (b.leds j)).2 = true) := by
  induction n with
  | zero => simp [forLeds_zero]
  | succ n ih =>
    obtain ⟨ih1, ih2, ih3⟩ := ih
    have hn : (forLeds n advanceBody (b, false)).1.leds n = b.leds n := by simp [ih2]
    rw [forLeds_succ]
    simp only [advanceBody, hn]
    refine ⟨by simp [setLed_numLeds, ih1], ?_, ?_⟩
    · intro j
      simp only [setLed_leds]
      by_cases h : j = n
      · subst h; simp
      · rw [if_neg h, ih2]
        by_cases h2 : j < n
        · simp [h2, Nat.lt_succ_of_lt h2]
        · have : ¬ j < n + 1 := by omega
          simp [h2, this]
    · simp only [Bool.or_eq_true, ih3]
      constructor
      · rintro (⟨j, hj, h⟩ | h)
        · exact ⟨j, by omega, h⟩
        · exact ⟨n, by omega, h⟩
      · rintro ⟨j, hj, h⟩
        by_cases hjn : j = n
        · subst hjn; exact Or.inr h
        · exact Or.inl ⟨j, by omega, h⟩

theorem outputLoop_spec (n : Nat) (b : Bank) (cycled : Bool) (rnd : Nat → Nat) :
    (forLeds n (outputBody b cycled rnd) ([], 0)).2 = drawsBefore b cycled n
    ∧ ∀ i, sentTo (forLeds n (outputBody b cycled rnd) ([], 0)).1 i
        = if i < n then (ledOutput (b.leds i) cycled (rnd (drawsBefore b cycled i))).toList
          else [] := by
  induction n with
  | zero => simp [forLeds_zero, drawsBefore, sentTo]
  | succ n ih =>
    obtain ⟨ih1, ih2⟩ := ih
    rw [forLeds_succ]
    simp only [outputBody, ih1]
    constructor
    · simp only [drawsBefore, List.range_succ, List.filter_append, List.length_append]
      by_cases h : drawsRandom (b.leds n) cycled = true <;> simp [h]
    · intro i
      have key : ∀ (o : Option Int),
          sentTo (match o with
            | some output => (forLeds n (outputBody b cycled rnd) ([], 0)).1 ++ [(output, n)]
            | none => (forLeds n (outputBody b cycled rnd) ([], 0)).1) i
          = sentTo (forLeds n (outputBody b cycled rnd) ([], 0)).1 i
              ++ (if i = n then o.toList else []) := by
        intro o
        cases o with
        | none => simp
        | some v =>
          by_cases h : i = n
          · subst h; simp [sentTo, List.filter_append]
          · have h2 : ¬ n = i := fun e => h e.symm
            simp [sentTo, List.filter_append, h, h2]
      simp only [key, ih2]
      by_cases h : i = n
      · subst h; simp
      · by_cases h2 : i < n
        · simp [h, h2, Nat.lt_succ_of_lt h2]
        · have : ¬ i < n + 1 := by omega
          simp [h, h2, this]

theorem mem_sentTo (calls : List (Int × Nat)) (v : Int) (i : Nat) :
    v ∈ sentTo calls i ↔ (v, i) ∈ calls := by
  simp [sentTo, List.mem_map, List.mem_filter]

/-! ## tick, one LED at a time -/

theorem tickGate_numLeds (b : Bank) : (tickGate b).numLeds = b.numLeds :=
  (forLeds_map gateLed b.numLeds b).1

theorem tickGate_leds (b : Bank) (j : Nat) :
    (tickGate b).leds j = if j < b.numLeds then gateLed (b.leds j) else b.leds j :=
  (forLeds_map gateLed b.numLeds b).2 j

theorem tick_numLeds (b : Bank) (rnd : Nat → Nat) : (tick b rnd).1.numLeds = b.numLeds := by
  have h := (advanceLoop_spec (tickGate b).numLeds (tickGate b)).1
  simp only [tick, tickAdvance]
  exact h.trans (tickGate_numLeds b)

theorem tick_leds (b : Bank) (rnd : Nat → Nat) (j : Nat) :
    (tick b rnd).1.leds j = if j < b.numLeds then tickLed (b.leds j) else b.leds j := by
  have h := (advanceLoop_spec (tickGate b).numLeds (tickGate b)).2.1 j
  simp only [tick, tickAdvance]
  rw [h, tickGate_numLeds, tickGate_leds]
  by_cases hj : j < b.numLeds <;> simp [hj, tickLed]

theorem cycledOf_iff (b : Bank) :
    cycledOf b = true ↔ ∃ j, j < b.numLeds ∧ wraps (b.leds j) = true := by
  have h := (advanceLoop_spec (tickGate b).numLeds (tickGate b)).2.2
  simp only [cycledOf, tickAdvance]
  rw [h, tickGate_numLeds]
  constructor
  · rintro ⟨j, hj, hw⟩
    refine ⟨j, hj, ?_⟩
    rw [tickGate_leds, if_pos hj] at hw
    exact hw
  · rintro ⟨j, hj, hw⟩
    refine ⟨j, hj, ?_⟩
    rw [tickGate_leds, if_pos hj]
    exact hw

theorem tick_sentTo (b : Bank) (rnd : Nat → Nat) (i : Nat) :
    sentTo (tick b rnd).2 i
      = if i < b.numLeds then
          (ledOutput (tickLed (b.leds i)) (cycledOf b)
            (rnd (drawsBefore (tick b rnd).1 (cycledOf b) i))).toList
        else [] := by
  have h := (outputLoop_spec (tick b rnd).1.numLeds (tick b rnd).1 (cycledOf b) rnd).2 i
  have e : (tick b rnd).2 = (tickOutput (tick b rnd).1 (cycledOf b) rnd).1 := rfl
  rw [e, tickOutput, h, tick_numLeds, tick_leds]
  by_cases hi : i < b.numLeds <;> simp [hi]

/-! ## Constructor and setters -/

theorem ctor_numLeds (mem : Bank) (numLeds : Nat) :
    (ShapedBrightnessController mem numLeds).numLeds
      = if numLeds < SBC_MAX_LEDS then numLeds else SBC_MAX_LEDS := by
  simp only [ShapedBrightnessController]
  exact (forLeds_map initLed _ _).1

theorem ctor_leds (mem : Bank) (numLeds : Nat) (j : Nat)
    (hj : j < (ShapedBrightnessController mem numLeds).numLeds) :
    (ShapedBrightnessController mem numLeds).leds j
      = initLed (mem.leds j) := by
  rw [ctor_numLeds] at hj
  simp only [ShapedBrightnessController]
  rw [(forLeds_map initLed _ _).2 j, if_pos hj]

theorem ledIndex_some (b : Bank) (led : Nat) (hn : 0 < b.numLeds) :
    ledIndex b led = some (led % b.numLeds) := by
  simp [ledIndex, Nat.pos_iff_ne_zero.mp hn]

theorem shr_eq_div (x : Int) (n : Nat) : shr x n = x / ((2 ^ n : Nat) : Int) :=
  Int.shiftRight_eq_div_pow x n

theorem setter_eq (b : Bank) (led : Nat) (g : Nat → Bank) (b1 : Bank)
    (h : (ledIndex b led).map g = some b1) :
    0 < b.numLeds ∧ b1 = g (led % b.numLeds) := by
  unfold ledIndex at h
  by_cases h0 : b.numLeds = 0
  · simp [h0] at h
  · simp [h0] at h
    exact ⟨Nat.pos_of_ne_zero h0, h.symm⟩

theorem setter_some (b : Bank) (led : Nat) (g : Nat → Bank) (hn : 0 < b.numLeds) :
    (ledIndex b led).map g = some (g (led % b.numLeds)) := by
  rw [ledIndex_some b led hn]
  rfl

theorem gateLed_fields (l : Led) :
    (gateLed l).counter = l.counter ∧ (gateLed l).phase = l.phase
    ∧ (gateLed l).shape = l.shape ∧ (gateLed l).rate = l.rate
    ∧ (gateLed l).scale = l.scale ∧ (gateLed l).triggerIP = l.triggerIP
    ∧ (gateLed l).cycle = l.cycle := by
  unfold gateLed
  split <;> simp

theorem advanceLed_fields (l : Led) :
    (advanceLed l).1.phase = l.phase ∧ (advanceLed l).1.shape = l.shape
    ∧ (advanceLed l).1.rate = l.rate ∧ (advanceLed l).1.scale = l.scale
    ∧ (advanceLed l).1.triggerIP = l.triggerIP
    ∧ (advanceLed l).1.prevTriggerIP = l.prevTriggerIP := by
  unfold advanceLed
  dsimp only
  repeat' split
  all_goals simp

theorem tickLed_fields (l : Led) :
    (tickLed l).phase = l.phase ∧ (tickLed l).shape = l.shape
    ∧ (tickLed l).rate = l.rate ∧ (tickLed l).scale = l.scale
    ∧ (tickLed l).triggerIP = l.triggerIP := by
  obtain ⟨_, g2, g3, g4, g5, g6, _⟩ := gateLed_fields l
  obtain ⟨a1, a2, a3, a4, a5, _⟩ := advanceLed_fields (gateLed l)
  simp only [tickLed]
  exact ⟨a1.trans g2, a2.trans g3, a3.trans g4, a4.trans g5, a5.trans g6⟩

theorem advanceLed_counter (l : Led) (hc : 0 ≤ l.counter ∧ l.counter ≤ 2047)
    (hr : 0 ≤ l.rate ∧ l.rate ≤ 255) :
    0 ≤ (advanceLed l).1.counter ∧ (advanceLed l).1.counter ≤ 2047 := by
  obtain ⟨hc1, hc2⟩ := hc
  obtain ⟨hr1, hr2⟩ := hr
  have e : int16 (l.counter + l.rate) = l.counter + l.rate := by
    unfold int16; omega
  unfold advanceLed
  dsimp only
  rw [e]
  repeat' split
  all_goals (dsimp only; omega)

theorem tickLed_counter (l : Led) (hc : 0 ≤ l.counter ∧ l.counter ≤ 2047)
    (hr : 0 ≤ l.rate ∧ l.rate ≤ 255) :
    0 ≤ (tickLed l).counter ∧ (tickLed l).counter ≤ 2047 := by
  obtain ⟨g1, _, _, g4, _⟩ := gateLed_fields l
  exact advanceLed_counter (gateLed l) (by rw [g1]; exact hc) (by rw [g4]; exact hr)

theorem shr_two_range (val : Int) (h0 : 0 ≤ val) (h1 : val ≤ 1023) :
    0 ≤ shr val 2 ∧ shr val 2 ≤ 255 := by
  rw [shr_eq_div]
  norm_num
  omega

theorem tmod_2048_range (phase : Int) (h0 : 0 ≤ phase) :
    0 ≤ Int.tmod phase 2048 ∧ Int.tmod phase 2048 ≤ 2047
    ∧ Int.tmod phase 2048 = phase % 2048 := by
  rw [Int.tmod_eq_emod h0 (by norm_num)]
  omega

theorem step_numLeds (b b1 : Bank) (c : Call) (h : step b c = some b1) :
    b1.numLeds = b.numLeds := by
  cases c with
  | tick rnd =>
    simp only [step, Option.some.injEq] at h
    rw [← h, tick_numLeds]
  | setRate led val =>
    obtain ⟨_, e⟩ := setter_eq b led _ b1 h
    rw [e, setLed_numLeds]
  | setScale led val =>
    obtain ⟨_, e⟩ := setter_eq b led _ b1 h
    rw [e, setLed_numLeds]
  | setTriggerIP led val =>
    obtain ⟨_, e⟩ := setter_eq b led _ b1 h
    rw [e, setLed_numLeds]
  | setPattern led shape phase =>
    obtain ⟨_, e⟩ := setter_eq b led _ b1 h
    rw [e, setLed_numLeds]

theorem step_isSome (b : Bank) (c : Call) (hn : 0 < b.numLeds) : ∃ b1, step b c = some b1 := by
  cases c with
  | tick rnd => exact ⟨_, rfl⟩
  | setRate led val => exact ⟨_, setter_some b led _ hn⟩
  | setScale led val => exact ⟨_, setter_some b led _ hn⟩
  | setTriggerIP led val => exact ⟨_, setter_some b led _ hn⟩
  | setPattern led shape phase => exact ⟨_, setter_some b led _ hn⟩

/-- On a bank with at least one LED every sequence of calls runs to its end. -/
theorem run_isSome (cs : List Call) (b : Bank) (hn : 0 < b.numLeds) :
    ∃ b1, run b cs = some b1 ∧ b1.numLeds = b.numLeds := by
  induction cs generalizing b with
  | nil => exact ⟨b, rfl, rfl⟩
  | cons c cs ih =>
    obtain ⟨b1, h1⟩ := step_isSome b c hn
    have hn1 := step_numLeds b b1 c h1
    obtain ⟨b2, h2, h3⟩ := ih b1 (by omega)
    exact ⟨b2, by simp [run, h1, h2], by omega⟩

theorem run_cons (b : Bank) (c : Call) (cs : List Call) (b2 : Bank)
    (h : run b (c :: cs) = some b2) :
    ∃ b1, step b c = some b1 ∧ run b1 cs = some b2 := by
  simp only [run] at h
  cases hs : step b c with
  | none => simp [hs] at h
  | some b1 => exact ⟨b1, rfl, by simpa [hs] using h⟩

theorem ctor_counterInv (mem : Bank) (numLeds : Nat) :
    CounterInv (ShapedBrightnessController mem numLeds) := by
  intro i hi
  rw [ctor_leds mem numLeds i hi]
  simp [initLed]

theorem step_counterInv (b b1 : Bank) (c : Call) (hc : c.counterSafe = true)
    (h : step b c = some b1) (hinv : CounterInv b) : CounterInv b1 := by
  intro i hi
  have hn := step_numLeds b b1 c h
  rw [hn] at hi
  obtain ⟨hcnt, hrate⟩ := hinv i hi
  cases c with
  | tick rnd =>
    simp only [step, Option.some.injEq] at h
    rw [← h, tick_leds, if_pos hi]
    obtain ⟨_, _, f3, _⟩ := tickLed_fields (b.leds i)
    exact ⟨tickLed_counter _ hcnt hrate, by rw [f3]; exact hrate⟩
  | setRate led val =>
    obtain ⟨_, e⟩ := setter_eq b led _ b1 h
    simp only [Call.counterSafe, Bool.and_eq_true, decide_eq_true_eq] at hc
    rw [e, setLed_leds]
    split
    · next hj => subst hj; exact ⟨hcnt, shr_two_range val hc.1 hc.2⟩
    · exact ⟨hcnt, hrate⟩
  | setScale led val =>
    obtain ⟨_, e⟩ := setter_eq b led _ b1 h
    rw [e, setLed_leds]
    split
    · next hj => subst hj; exact ⟨hcnt, hrate⟩
    · exact ⟨hcnt, hrate⟩
  | setTriggerIP led val =>
    obtain ⟨_, e⟩ := setter_eq b led _ b1 h
    rw [e, setLed_leds]
    split
    · next hj => subst hj; exact ⟨hcnt, hrate⟩
    · exact ⟨hcnt, hrate⟩
  | setPattern led shape phase =>
    obtain ⟨_, e⟩ := setter_eq b led _ b1 h
    simp only [Call.counterSafe, decide_eq_true_eq] at hc
    obtain ⟨t1, t2, _⟩ := tmod_2048_range phase hc
    rw [e, setLed_leds]
    split
    · next hj => subst hj; exact ⟨⟨t1, t2⟩, hrate⟩
    · exact ⟨hcnt, hrate⟩

theorem run_counterInv (cs : List Call) (b b1 : Bank)
    (hcs : ∀ c ∈ cs, c.counterSafe = true) (h : run b cs = some b1)
    (hinv : CounterInv b) : CounterInv b1 := by
  induction cs generalizing b with
  | nil =>
    simp only [run, Option.some.injEq] at h
    rw [← h]; exact hinv
  | cons c cs ih =>
    obtain ⟨b2, h1, h2⟩ := run_cons b c cs b1 h
    exact ih b2 (fun c1 hc1 => hcs c1 (List.mem_cons_of_mem _ hc1)) h2
      (step_counterInv b b2 c (hcs c (List.mem_cons_self _ _)) h1 hinv)

/-- Every call acts on the cells of one LED as `Call.onLed` says. -/
theorem step_led (b b1 : Bank) (c : Call) (i : Nat) (hi : i < b.numLeds)
    (h : step b c = some b1) : b1.leds i = c.onLed b.numLeds i (b.leds i) := by
  cases c with
  | tick rnd =>
    simp only [step, Option.some.injEq] at h
    rw [← h, tick_leds, if_pos hi]
    rfl
  | setRate led val =>
    obtain ⟨_, e⟩ := setter_eq b led _ b1 h
    rw [e, setLed_leds]
    simp only [Call.onLed]
    by_cases hj : led % b.numLeds = i
    · subst hj; simp
    · have hj2 : ¬ i = led % b.numLeds := fun e => hj e.symm
      simp [hj, hj2]
  | setScale led val =>
    obtain ⟨_, e⟩ := setter_eq b led _ b1 h
    rw [e, setLed_leds]
    simp only [Call.onLed]
    by_cases hj : led % b.numLeds = i
    · subst hj; simp
    · have hj2 : ¬ i = led % b.numLeds := fun e => hj e.symm
      simp [hj, hj2]
  | setTriggerIP led val =>
    obtain ⟨_, e⟩ := setter_eq b led _ b1 h
    rw [e, setLed_leds]
    simp only [Call.onLed]
    by_cases hj : led % b.numLeds = i
    · subst hj; simp
    · have hj2 : ¬ i = led % b.numLeds := fun e => hj e.symm
      simp [hj, hj2]
  | setPattern led shape phase =>
    obtain ⟨_, e⟩ := setter_eq b led _ b1 h
    rw [e, setLed_leds]
    simp only [Call.onLed]
    by_cases hj : led % b.numLeds = i
    · subst hj; simp
    · have hj2 : ¬ i = led % b.numLeds := fun e => hj e.symm
      simp [hj, hj2]

/-- A call other than `setPattern` for LED `i` leaves its shape and phase alone. -/
theorem onLed_pattern (n i : Nat) (c : Call) (l : Led) (hc : c.setsPatternOf n i = false) :
    (c.onLed n i l).shape = l.shape ∧ (c.onLed n i l).phase = l.phase := by
  cases c with
  | tick rnd =>
    obtain ⟨f1, f2, _⟩ := tickLed_fields l
    exact ⟨f2, f1⟩
  | setRate led val => simp only [Call.onLed]; split <;> simp
  | setScale led val => simp only [Call.onLed]; split <;> simp
  | setTriggerIP led val => simp only [Call.onLed]; split <;> simp
  | setPattern led shape phase =>
    simp only [Call.setsPatternOf, beq_eq_false_iff_ne, ne_eq] at hc
    simp [Call.onLed, hc]

theorem run_pattern (cs : List Call) (b b1 : Bank) (i : Nat) (hi : i < b.numLeds)
    (hcs : ∀ c ∈ cs, c.setsPatternOf b.numLeds i = false) (h : run b cs = some b1) :
    (b1.leds i).shape = (b.leds i).shape ∧ (b1.leds i).phase = (b.leds i).phase := by
  induction cs generalizing b with
  | nil =>
    simp only [run, Option.some.injEq] at h
    rw [← h]; exact ⟨rfl, rfl⟩
  | cons c cs ih =>
    obtain ⟨b2, h1, h2⟩ := run_cons b c cs b1 h
    have hn := step_numLeds b b2 c h1
    have hl := step_led b b2 c i hi h1
    obtain ⟨o1, o2⟩ := onLed_pattern b.numLeds i c (b.leds i) (hcs c (List.mem_cons_self _ _))
    obtain ⟨r1, r2⟩ := ih b2 (by omega)
      (fun c1 hc1 => by rw [hn]; exact hcs c1 (List.mem_cons_of_mem _ hc1)) h2
    rw [hl] at r1 r2
    exact ⟨r1.trans o1, r2.trans o2⟩

theorem highByte_small (p : Int) (h0 : 0 ≤ p) (h1 : p ≤ 2047) :
    highByte p = (p / 256).toNat ∧ ((highByte p : Nat) : Int) = p / 256 := by
  have e : shr p 8 = p / 256 := by rw [shr_eq_div]; norm_num
  have e2 : p / 256 % 256 = p / 256 := by omega
  unfold highByte
  rw [e, e2]
  exact ⟨rfl, Int.toNat_of_nonneg (by omega)⟩

theorem lowByte_cast (p : Int) : ((lowByte p : Nat) : Int) = p % 256 := by
  unfold lowByte
  exact Int.toNat_of_nonneg (by omega)

theorem decode_encode (p : Int) (h0 : 0 ≤ p) (h1 : p ≤ 2047) :
    int16 (int16 ((highByte p : Nat) * 256) + (lowByte p : Nat)) = p := by
  rw [(highByte_small p h0 h1).2, lowByte_cast]
  unfold int16
  omega

/-! ## Output ranges -/

theorem inRange_counterSafe (c : Call) (h : c.inRange = true) : c.counterSafe = true := by
  cases c <;> simp_all [Call.inRange, Call.counterSafe]

theorem ctor_scaleInv (mem : Bank) (numLeds : Nat) :
    ScaleInv (ShapedBrightnessController mem numLeds) := by
  intro i hi
  rw [ctor_leds mem numLeds i hi]
  simp [initLed]

theorem step_scaleInv (b b1 : Bank) (c : Call) (hc : c.inRange = true)
    (h : step b c = some b1) (hinv : ScaleInv b) : ScaleInv b1 := by
  intro i hi
  have hn := step_numLeds b b1 c h
  rw [hn] at hi
  have hs := hinv i hi
  rw [step_led b b1 c i hi h]
  cases c with
  | tick rnd =>
    obtain ⟨_, _, _, f4, _⟩ := tickLed_fields (b.leds i)
    simp only [Call.onLed]
    rw [f4]; exact hs
  | setRate led val => simp only [Call.onLed]; split <;> exact hs
  | setScale led val =>
    simp only [Call.inRange, Bool.and_eq_true, decide_eq_true_eq] at hc
    simp only [Call.onLed]
    split
    · exact shr_two_range val hc.1 hc.2
    · exact hs
  | setTriggerIP led val => simp only [Call.onLed]; split <;> exact hs
  | setPattern led shape phase => simp only [Call.onLed]; split <;> exact hs

theorem run_rangeInv (cs : List Call) (b b1 : Bank)
    (hcs : ∀ c ∈ cs, c.inRange = true) (h : run b cs = some b1)
    (hinv : CounterInv b ∧ ScaleInv b) : CounterInv b1 ∧ ScaleInv b1 := by
  induction cs generalizing b with
  | nil =>
    simp only [run, Option.some.injEq] at h
    rw [← h]; exact hinv
  | cons c cs ih =>
    obtain ⟨b2, h1, h2⟩ := run_cons b c cs b1 h
    have hc := hcs c (List.mem_cons_self _ _)
    exact ih b2 (fun c1 hc1 => hcs c1 (List.mem_cons_of_mem _ hc1)) h2
      ⟨step_counterInv b b2 c (inRange_counterSafe c hc) h1 hinv.1,
        step_scaleInv b b2 c hc h1 hinv.2⟩

theorem random_255_range (raw : Nat) : 0 ≤ random 255 raw ∧ random 255 raw ≤ 254 := by
  unfold random
  rw [if_neg (by norm_num), Int.tmod_eq_emod (by omega) (by norm_num)]
  omega

theorem pow2_nonneg (x : Int) : 0 ≤ pow2 x := mul_self_nonneg x

/-- With the counter in 0..2047 every waveform gives a base sample in 0..255. -/
theorem waveBase_range (l : Led) (cycled : Bool) (raw : Nat) (base : Int)
    (hc : 0 ≤ l.counter ∧ l.counter ≤ 2047) (h : waveBase l cycled raw = some base) :
    0 ≤ base ∧ base ≤ 255 := by
  obtain ⟨hc1, hc2⟩ := hc
  have e3 : shr l.counter 3 = l.counter / 8 := by rw [shr_eq_div]; norm_num
  have e2 : shr l.counter 2 = l.counter / 4 := by rw [shr_eq_div]; norm_num
  have e2b : shr (int16 (2047 - l.counter)) 2 = (2047 - l.counter) / 4 := by
    rw [shr_eq_div]; unfold int16; norm_num; omega
  have hr := random_255_range raw
  have hp1 := pow2_nonneg (shr l.counter 6)
  have hp2 := pow2_nonneg (int16 (31 - shr l.counter 6))
  unfold waveBase at h
  dsimp only at h
  rw [e3, e2, e2b] at h
  repeat' split at h
  all_goals
    simp only [Option.some.injEq, reduceCtorEq] at h
  all_goals
    subst h
  all_goals
    omega

/-- With scale and base in 0..255 the value sent to the PWM device lies in 1..255. -/
theorem shapeOutput_range (l : Led) (base : Int)
    (hs : 0 ≤ l.scale ∧ l.scale ≤ 255) (hb : 0 ≤ base ∧ base ≤ 255) :
    1 ≤ shapeOutput l base ∧ shapeOutput l base ≤ 255 := by
  obtain ⟨hs1, hs2⟩ := hs
  obtain ⟨hb1, hb2⟩ := hb
  have m1 : 0 ≤ base * l.scale := mul_nonneg hb1 hs1
  have m2 : base * l.scale ≤ 255 * 255 := mul_le_mul hb2 hs2 hs1 (by norm_num)
  have e : shr (base * l.scale) 8 = base * l.scale / 256 := by rw [shr_eq_div]; norm_num
  unfold shapeOutput
  dsimp only
  rw [e]
  generalize base * l.scale = m at m1 m2
  unfold int16
  repeat' split
  all_goals omega

theorem ledOutput_range (l : Led) (cycled : Bool) (raw : Nat) (v : Int)
    (hc : 0 ≤ l.counter ∧ l.counter ≤ 2047) (hs : 0 ≤ l.scale ∧ l.scale ≤ 255)
    (h : ledOutput l cycled raw = some v) : 0 ≤ v ∧ v ≤ 255 := by
  unfold ledOutput at h
  split at h
  · simp only [Option.some.injEq] at h
    omega
  · cases hw : waveBase l cycled raw with
    | none => simp [hw] at h
    | some base =>
      simp only [hw, Option.map_some', Option.some.injEq] at h
      have := shapeOutput_range l base hs (waveBase_range l cycled raw base hc hw)
      omega

/-- What `tick` sends for one LED: nothing for an index outside the bank, else the
output of that LED computed from its cells after the first two loops. -/
theorem tick_sent (b : Bank) (rnd : Nat → Nat) (v : Int) (i : Nat)
    (h : (v, i) ∈ (tick b rnd).2) :
    i < b.numLeds ∧ ∃ raw, ledOutput ((tick b rnd).1.leds i) (cycledOf b) raw = some v := by
  rw [← mem_sentTo, tick_sentTo] at h
  by_cases hi : i < b.numLeds
  · rw [if_pos hi] at h
    refine ⟨hi, rnd (drawsBefore (tick b rnd).1 (cycledOf b) i), ?_⟩
    rw [tick_leds, if_pos hi]
    simpa [Option.mem_toList] using h
  · simp [hi] at h

/-! ## Bit masks -/

theorem and_mod256 (s m : Nat) (hm : 255 &&& m = m) : s &&& m = (s % 256) &&& m := by
  have h := Nat.and_pow_two_sub_one_eq_mod s 8
  norm_num at h
  rw [← h, Nat.and_assoc, hm]

set_option maxRecDepth 100000 in
theorem gateout_only_small : ∀ t : Nat, t < 256 →
    ((t &&& 192 = 64) ↔ (t &&& 64 ≠ 0 ∧ t &&& 128 = 0)) := by
  decide

set_option maxRecDepth 100000 in
theorem miss_bits_small : ∀ t : Nat, t < 256 →
    ((t &&& 48 = 0) ↔ (t &&& 32 = 0 ∧ t &&& 16 = 0)) := by
  decide

/-- The test `(_shape[i]&(SBC_TG_1SHOT+SBC_TG_GATEOUT)) == SBC_TG_GATEOUT` holds exactly
when the GATEOUT bit is set and the one-shot bit is not. -/
theorem gateout_only_iff (s : Nat) :
    (s &&& (SBC_TG_1SHOT + SBC_TG_GATEOUT) == SBC_TG_GATEOUT) = true
      ↔ (hasBits s SBC_TG_GATEOUT = true ∧ hasBits s SBC_TG_1SHOT = false) := by
  have h := gateout_only_small (s % 256) (Nat.mod_lt _ (by decide))
  rw [← and_mod256 s 192 (by decide), ← and_mod256 s 64 (by decide),
    ← and_mod256 s 128 (by decide)] at h
  simp only [hasBits, SBC_TG_1SHOT, SBC_TG_GATEOUT, beq_iff_eq, bne_iff_ne, ne_eq,
    Nat.reduceAdd, bne_eq_false_iff_eq]
  exact h

/-- The test `(_shape[i]&(SBC_WSMOD_MISS2+SBC_WSMOD_MISS1))>0` fails exactly when
`cycleLength` would be 0. -/
theorem miss_bits_iff (s : Nat) :
    s &&& (SBC_WSMOD_MISS2 + SBC_WSMOD_MISS1) > 0 ↔ 0 < missLen s := by
  have h := miss_bits_small (s % 256) (Nat.mod_lt _ (by decide))
  rw [← and_mod256 s 48 (by decide), ← and_mod256 s 32 (by decide),
    ← and_mod256 s 16 (by decide)] at h
  simp only [missLen, hasBits, SBC_WSMOD_MISS2, SBC_WSMOD_MISS1, Nat.reduceAdd, bne_iff_ne,
    ne_eq]
  by_cases h32 : s &&& 32 = 0 <;> by_cases h16 : s &&& 16 = 0 <;>
    simp [h32, h16] <;> omega

theorem outputOverride_iff (l : Led) : outputOverride l = true ↔ OverrideCase l := by
  unfold outputOverride OverrideCase
  simp only [Bool.or_eq_true, Bool.and_eq_true, gateout_only_iff, Bool.not_eq_true',
    bne_iff_ne, ne_eq, or_assoc, and_assoc]

theorem shapeOutput_ne_zero (l : Led) (base : Int) : shapeOutput l base ≠ 0 := by
  have key : ∀ x : Int, (if x = 0 then (1 : Int) else x) ≠ 0 := by
    intro x
    split
    · norm_num
    · assumption
  unfold shapeOutput
  exact key _

/-- The value sent for a LED is 0 exactly in the override cases. -/
theorem ledOutput_zero_iff (l : Led) (cycled : Bool) (raw : Nat) (v : Int)
    (h : ledOutput l cycled raw = some v) : v = 0 ↔ OverrideCase l := by
  rw [← outputOverride_iff]
  unfold ledOutput at h
  split at h
  · next ho =>
    simp only [Option.some.injEq] at h
    exact ⟨fun _ => ho, fun _ => h.symm⟩
  · next ho =>
    cases hw : waveBase l cycled raw with
    | none => simp [hw] at h
    | some base =>
      simp only [hw, Option.map_some', Option.some.injEq] at h
      constructor
      · intro hv
        exact absurd (h.trans hv) (shapeOutput_ne_zero l base)
      · intro hov
        exact absurd hov ho

theorem ledOutput_pos (l : Led) (cycled : Bool) (raw : Nat) (v : Int)
    (hc : 0 ≤ l.counter ∧ l.counter ≤ 2047) (hs : 0 ≤ l.scale ∧ l.scale ≤ 255)
    (hov : ¬ OverrideCase l) (h : ledOutput l cycled raw = some v) : 1 ≤ v := by
  have hr := ledOutput_range l cycled raw v hc hs h
  have hz := ledOutput_zero_iff l cycled raw v h
  have : v ≠ 0 := fun e => hov (hz.mp e)
  omega

/-! ## The RANDOM waveform -/

/-- Outside the override cases a LED with the RANDOM waveform is sent a fresh sample
when `cycled` is set and nothing when it is not. -/
theorem ledOutput_rnd (l : Led) (cycled : Bool) (raw : Nat)
    (hrnd : l.shape &&& 7 = SBC_WAVESHAPE_RND) (hov : ¬ OverrideCase l) :
    ledOutput l cycled raw
      = if cycled = true then some (shapeOutput l (random 255 raw)) else none := by
  have ho : outputOverride l = false := by
    rw [← outputOverride_iff] at hov
    simpa using hov
  unfold ledOutput waveBase
  simp only [ho, hrnd, SBC_WAVESHAPE_RND, SBC_WAVESHAPE_OFF, SBC_WAVESHAPE_SAW,
    SBC_WAVESHAPE_TRI, SBC_WAVESHAPE_SQU, SBC_WAVESHAPE_PULSE, SBC_WAVESHAPE_SPIKE]
  cases cycled <;> simp

theorem drawsRandom_rnd (l : Led) (cycled : Bool)
    (hrnd : l.shape &&& 7 = SBC_WAVESHAPE_RND) (hov : ¬ OverrideCase l) :
    drawsRandom l cycled = cycled := by
  have ho : outputOverride l = false := by
    rw [← outputOverride_iff] at hov
    simpa using hov
  simp [drawsRandom, ho, hrnd]

/-- What the third loop does for a LED with the RANDOM waveform that is in no override
case: the flag `cycled` it reads is the one variable of `tick`, set by whichever LED of
the bank wrapped in the second loop, so a sample is drawn and sent exactly when some
counter of the bank reached 2048 in this `tick`. -/
theorem rnd_sent_iff_any_wrap (b : Bank) (rnd : Nat → Nat) (i : Nat)
    (hi : i < b.numLeds) (hrnd : (b.leds i).shape &&& 7 = SBC_WAVESHAPE_RND)
    (hov : ¬ OverrideCase ((tick b rnd).1.leds i)) :
    (sentTo (tick b rnd).2 i ≠ [] ↔ ∃ j, j < b.numLeds ∧ wraps (b.leds j) = true)
    ∧ (drawsRandom ((tick b rnd).1.leds i) (cycledOf b) = true
        ↔ ∃ j, j < b.numLeds ∧ wraps (b.leds j) = true)
    ∧ ((∃ j, j < b.numLeds ∧ wraps (b.leds j) = true) →
        ∃ raw, sentTo (tick b rnd).2 i
          = [shapeOutput ((tick b rnd).1.leds i) (random 255 raw)])
    ∧ (wraps (b.leds i) = true → sentTo (tick b rnd).2 i ≠ [])
    ∧ ((∀ j, j < b.numLeds → wraps (b.leds j) = false) → sentTo (tick b rnd).2 i = []) := by
  have hl : (tick b rnd).1.leds i = tickLed (b.leds i) := by rw [tick_leds, if_pos hi]
  have hrnd2 : (tickLed (b.leds i)).shape &&& 7 = SBC_WAVESHAPE_RND := by
    rw [(tickLed_fields (b.leds i)).2.1]; exact hrnd
  rw [hl] at hov ⊢
  have hs := tick_sentTo b rnd i
  rw [if_pos hi, ledOutput_rnd _ _ _ hrnd2 hov] at hs
  have hd := drawsRandom_rnd _ (cycledOf b) hrnd2 hov
  have hcy := cycledOf_iff b
  by_cases hc : cycledOf b = true
  · have hex := hcy.mp hc
    rw [if_pos hc] at hs
    refine ⟨⟨fun _ => hex, fun _ => by rw [hs]; simp⟩, ⟨fun _ => hex, fun _ => by rw [hd]; exact hc⟩,
      fun _ => ⟨_, hs⟩, fun _ => by rw [hs]; simp, ?_⟩
    intro hall
    obtain ⟨j, hj, hw⟩ := hex
    rw [hall j hj] at hw
    exact absurd hw (by decide)
  · have hnex : ¬ ∃ j, j < b.numLeds ∧ wraps (b.leds j) = true := fun h => hc (hcy.mpr h)
    rw [if_neg hc] at hs
    refine ⟨⟨fun h => absurd (by rw [hs]; rfl) h, fun h => absurd h hnex⟩,
      ⟨fun h => absurd (by rw [← hd]; exact h) hc, fun h => absurd h hnex⟩,
      fun h => absurd h hnex, fun h => absurd ⟨i, hi, h⟩ hnex, fun _ => by rw [hs]; rfl⟩

/-! ## One-shot -/

theorem missLen_le (s : Nat) : missLen s ≤ 3 := by
  unfold missLen
  split <;> split <;> omega

theorem gateLed_oneShot (l : Led) (h1 : hasBits l.shape SBC_TG_1SHOT = true) :
    gateLed l
      = { l with
          changeEnable :=
            l.changeEnable || (decide (l.triggerIP ≥ 512) && decide (l.prevTriggerIP < 512)),
          prevTriggerIP := l.triggerIP } := by
  simp [gateLed, h1]

theorem advanceLed_idle (l : Led) (h : l.changeEnable = false) : advanceLed l = (l, false) := by
  simp [advanceLed, h]

/-- The second loop on a one-shot LED whose shot is in progress, with `cycle` wraps
counted so far: without a wrap nothing changes, a wrap before the last cycle counts
one more, the wrap that ends the last cycle ends the shot. -/
theorem advanceLed_oneShot (l : Led) (h1 : hasBits l.shape SBC_TG_1SHOT = true)
    (hce : l.changeEnable = true) (hk : l.cycle ≤ missLen l.shape) :
    ((advanceLed l).2 = false →
      (advanceLed l).1.changeEnable = true ∧ (advanceLed l).1.cycle = l.cycle)
    ∧ ((advanceLed l).2 = true → l.cycle < missLen l.shape →
      (advanceLed l).1.changeEnable = true ∧ (advanceLed l).1.cycle = l.cycle + 1)
    ∧ ((advanceLed l).2 = true → l.cycle = missLen l.shape →
      (advanceLed l).1.changeEnable = false ∧ (advanceLed l).1.cycle = 0) := by
  have hm := miss_bits_iff l.shape
  have h3 := missLen_le l.shape
  have e : (if hasBits l.shape SBC_WSMOD_MISS2 = true then 2 else 0)
      + (if hasBits l.shape SBC_WSMOD_MISS1 = true then 1 else 0) = missLen l.shape := rfl
  unfold advanceLed
  simp only [hce, if_true, h1, e]
  by_cases hw : int16 (l.counter + l.rate) ≥ 2048
  · by_cases hb : l.shape &&& (SBC_WSMOD_MISS2 + SBC_WSMOD_MISS1) > 0
    · by_cases hc : l.cycle = missLen l.shape
      · simp [hw, hb, hc]
      · simp [hw, hb, hc, hce]
        omega
    · have h0 : missLen l.shape = 0 := by
        have := mt hm.mpr hb
        omega
      have hc0 : l.cycle = 0 := by omega
      simp [hw, hb, h0, hc0]
  · simp [hw, hce]

/-- A wrap can only happen with `changeEnable` set after the first loop. -/
theorem wraps_enabled (l : Led) (h : wraps l = true) : (gateLed l).changeEnable = true := by
  by_contra hne
  have hf : (gateLed l).changeEnable = false := by simpa using hne
  rw [wraps, advanceLed_idle _ hf] at h
  simp at h

/-- One `tick` on a one-shot LED that is enabled after the first loop. -/
theorem tickLed_oneShot (l : Led) (h1 : hasBits l.shape SBC_TG_1SHOT = true)
    (hce : (gateLed l).changeEnable = true) (hk : l.cycle ≤ missLen l.shape) :
    (wraps l = false → (tickLed l).changeEnable = true ∧ (tickLed l).cycle = l.cycle)
    ∧ (wraps l = true → l.cycle < missLen l.shape →
      (tickLed l).changeEnable = true ∧ (tickLed l).cycle = l.cycle + 1)
    ∧ (wraps l = true → l.cycle = missLen l.shape →
      (tickLed l).changeEnable = false ∧ (tickLed l).cycle = 0) := by
  obtain ⟨_, _, g3, _, _, _, g7⟩ := gateLed_fields l
  have := advanceLed_oneShot (gateLed l) (by rw [g3]; exact h1) hce (by rw [g3, g7]; exact hk)
  rw [g3, g7] at this
  exact this

/-- One `tick` on a LED that is not enabled after the first loop changes neither
counter nor cycle and does not wrap. -/
theorem tickLed_disabled (l : Led) (hce : (gateLed l).changeEnable = false) :
    (tickLed l).changeEnable = false ∧ (tickLed l).counter = l.counter
    ∧ (tickLed l).cycle = l.cycle ∧ wraps l = false := by
  obtain ⟨g1, _, _, _, _, _, g7⟩ := gateLed_fields l
  unfold tickLed wraps
  rw [advanceLed_idle _ hce]
  exact ⟨hce, g1, g7, rfl⟩

/-- Calls other than `tick` and `setPattern` for this LED leave the run-time cells of a
LED alone. -/
theorem onLed_control (n i : Nat) (c : Call) (l : Led) (hc : c.setsPatternOf n i = false)
    (ht : c.isTick = false) :
    (c.onLed n i l).shape = l.shape ∧ (c.onLed n i l).changeEnable = l.changeEnable
    ∧ (c.onLed n i l).cycle = l.cycle ∧ (c.onLed n i l).counter = l.counter
    ∧ (c.onLed n i l).prevTriggerIP = l.prevTriggerIP := by
  cases c with
  | tick rnd => simp [Call.isTick] at ht
  | setRate led val => simp only [Call.onLed]; split <;> simp
  | setScale led val => simp only [Call.onLed]; split <;> simp
  | setTriggerIP led val => simp only [Call.onLed]; split <;> simp
  | setPattern led shape phase =>
    simp only [Call.setsPatternOf, beq_eq_false_iff_ne, ne_eq] at hc
    simp [Call.onLed, hc]

theorem wrapCount_cons (b b1 : Bank) (i : Nat) (c : Call) (cs : List Call)
    (h : step b c = some b1) :
    wrapCount b i (c :: cs)
      = (if c.isTick && decide (i < b.numLeds) && wraps (b.leds i) then 1 else 0)
        + wrapCount b1 i cs := by
  rw [wrapCount]
  simp only [h]

theorem wrapCount_tick (b : Bank) (i : Nat) (rnd : Nat → Nat) (cs : List Call)
    (hi : i < b.numLeds) :
    wrapCount b i (Call.tick rnd :: cs)
      = (if wraps (b.leds i) = true then 1 else 0) + wrapCount (tick b rnd).1 i cs := by
  rw [wrapCount_cons b (tick b rnd).1 i (Call.tick rnd) cs rfl]
  simp [hi, Call.isTick]

theorem wrapCount_control (b b1 : Bank) (i : Nat) (c : Call) (cs : List Call)
    (h : step b c = some b1) (ht : c.isTick = false) :
    wrapCount b i (c :: cs) = wrapCount b1 i cs := by
  rw [wrapCount_cons b b1 i c cs h]
  simp [ht]

theorem run_append_tick (cs : List Call) (b b1 : Bank) (rnd : Nat → Nat)
    (h : run b cs = some b1) :
    run b (cs ++ [Call.tick rnd]) = some (tick b1 rnd).1 := by
  induction cs generalizing b with
  | nil =>
    simp only [run, Option.some.injEq] at h
    subst h
    rfl
  | cons c cs ih =>
    obtain ⟨b2, h1, h2⟩ := run_cons b c cs b1 h
    simp only [List.cons_append, run, h1, Option.some_bind]
    exact ih b2 h2

theorem wrapCount_append_tick (cs : List Call) (b b1 : Bank) (i : Nat) (rnd : Nat → Nat)
    (hi : i < b.numLeds) (h : run b cs = some b1) :
    wrapCount b i (cs ++ [Call.tick rnd])
      = wrapCount b i cs + (if wraps (b1.leds i) = true then 1 else 0) := by
  induction cs generalizing b with
  | nil =>
    simp only [run, Option.some.injEq] at h
    subst h
    simp [wrapCount, step, hi, Call.isTick]
  | cons c cs ih =>
    obtain ⟨b2, h1, h2⟩ := run_cons b c cs b1 h
    have hn := step_numLeds b b2 c h1
    rw [List.cons_append, wrapCount_cons b b2 i c _ h1, wrapCount_cons b b2 i c cs h1,
      ih b2 (by omega) h2]
    omega

theorem isTick_eq (c : Call) (h : c.isTick = true) : ∃ rnd, c = Call.tick rnd := by
  cases c with
  | tick rnd => exact ⟨rnd, rfl⟩
  | _ => simp [Call.isTick] at h

/-- One `tick` on a one-shot LED with `w` wraps counted in `cycle`: the count follows
the wraps up to `missLen`, and a shot in progress stays in progress. -/
theorem tickLed_shot (l : Led) (w : Nat) (live : Prop)
    (h1 : hasBits l.shape SBC_TG_1SHOT = true)
    (hinv : w ≤ missLen l.shape → l.cycle = w ∧ (live → l.changeEnable = true))
    (hw : w + (if wraps l = true then 1 else 0) ≤ missLen l.shape) :
    (tickLed l).cycle = w + (if wraps l = true then 1 else 0)
    ∧ (live → (tickLed l).changeEnable = true) := by
  have hgate := gateLed_oneShot l h1
  by_cases hwr : wraps l = true
  · rw [if_pos hwr] at hw ⊢
    obtain ⟨hc, hl⟩ := hinv (by omega)
    have hen := wraps_enabled l hwr
    obtain ⟨_, t2, _⟩ := tickLed_oneShot l h1 hen (by omega)
    obtain ⟨r1, r2⟩ := t2 hwr (by omega)
    exact ⟨by rw [r2, hc], fun _ => r1⟩
  · have hwf : wraps l = false := by simpa using hwr
    rw [if_neg hwr] at hw ⊢
    obtain ⟨hc, hl⟩ := hinv (by omega)
    by_cases hen : (gateLed l).changeEnable = true
    · obtain ⟨t1, _, _⟩ := tickLed_oneShot l h1 hen (by omega)
      obtain ⟨r1, r2⟩ := t1 hwf
      exact ⟨by rw [r2, hc]; rfl, fun _ => r1⟩
    · have hdis : (gateLed l).changeEnable = false := by simpa using hen
      obtain ⟨_, _, d3, _⟩ := tickLed_disabled l hdis
      refine ⟨by rw [d3, hc]; rfl, fun hlive => ?_⟩
      have hce := hl hlive
      rw [hgate] at hdis
      simp [hce] at hdis

/-- Along a run without `setPattern` for a one-shot LED, `cycle` counts the wraps of
that LED as long as there are at most `missLen` of them, and a shot in progress stays
in progress that long. -/
theorem run_shot (cs : List Call) (b b1 : Bank) (i : Nat) (s w0 : Nat) (live : Prop)
    (hi : i < b.numLeds) (hcs : ∀ c ∈ cs, c.setsPatternOf b.numLeds i = false)
    (h1 : hasBits s SBC_TG_1SHOT = true) (hs : (b.leds i).shape = s)
    (hinv : w0 ≤ missLen s → (b.leds i).cycle = w0 ∧ (live → (b.leds i).changeEnable = true))
    (hrun : run b cs = some b1) :
    (b1.leds i).shape = s
    ∧ (w0 + wrapCount b i cs ≤ missLen s →
        (b1.leds i).cycle = w0 + wrapCount b i cs
        ∧ (live → (b1.leds i).changeEnable = true)) := by
  induction cs generalizing b w0 with
  | nil =>
    simp only [run, Option.some.injEq] at hrun
    subst hrun
    exact ⟨hs, by simpa [wrapCount] using hinv⟩
  | cons c cs ih =>
    obtain ⟨b2, hstep, hrest⟩ := run_cons b c cs b1 hrun
    have hn := step_numLeds b b2 c hstep
    have hl := step_led b b2 c i hi hstep
    have hc := hcs c (List.mem_cons_self _ _)
    have hcs2 : ∀ c1 ∈ cs, c1.setsPatternOf b2.numLeds i = false := fun c1 hc1 => by
      rw [hn]; exact hcs c1 (List.mem_cons_of_mem _ hc1)
    by_cases ht : c.isTick = true
    · obtain ⟨rnd, rfl⟩ := isTick_eq c ht
      have hl2 : b2.leds i = tickLed (b.leds i) := hl
      have hb2 : b2 = (tick b rnd).1 := by
        simp only [step, Option.some.injEq] at hstep
        exact hstep.symm
      rw [wrapCount_tick b i rnd cs hi, ← hb2]
      have hs2 : (b2.leds i).shape = s := by
        rw [hl2, (tickLed_fields (b.leds i)).2.1]; exact hs
      have := ih b2 (w0 + (if wraps (b.leds i) = true then 1 else 0)) (by omega) hcs2 hs2
        (fun hw => by
          rw [hl2]
          exact tickLed_shot (b.leds i) w0 live (by rw [hs]; exact h1)
            (by rw [hs]; exact hinv) (by rw [hs]; exact hw))
        hrest
      rw [Nat.add_assoc] at this
      exact this
    · have htf : c.isTick = false := by simpa using ht
      obtain ⟨o1, o2, o3, _, _⟩ := onLed_control b.numLeds i c (b.leds i) hc htf
      rw [wrapCount_control b b2 i c cs hstep htf]
      exact ih b2 w0 (by omega) hcs2 (by rw [hl, o1]; exact hs)
        (by rw [hl, o2, o3]; exact hinv) hrest

/-! ## An ended shot -/

theorem tickLed_prev (l : Led) (h1 : hasBits l.shape SBC_TG_1SHOT = true) :
    (tickLed l).prevTriggerIP = l.triggerIP := by
  have hg := gateLed_oneShot l h1
  obtain ⟨_, _, _, _, _, a6⟩ := advanceLed_fields (gateLed l)
  unfold tickLed
  rw [a6, hg]

/-- Without a rising edge a one-shot LED that is not enabled stays so and its counter
stands still. -/
theorem tickLed_no_edge (l : Led) (h1 : hasBits l.shape SBC_TG_1SHOT = true)
    (hce : l.changeEnable = false)
    (hedge : ¬ (l.prevTriggerIP < 512 ∧ 512 ≤ l.triggerIP)) :
    (tickLed l).changeEnable = false ∧ (tickLed l).counter = l.counter := by
  have hdis : (gateLed l).changeEnable = false := by
    rw [gateLed_oneShot l h1]
    simp only [hce, Bool.false_or, Bool.and_eq_false_imp, decide_eq_true_eq, decide_eq_false_iff_not]
    intro h2 h3
    exact hedge ⟨h3, h2⟩
  obtain ⟨d1, d2, _, _⟩ := tickLed_disabled l hdis
  exact ⟨d1, d2⟩

/-- A one-shot LED that is not enabled after the first two loops is sent 0. -/
theorem ledOutput_oneShot_idle (l : Led) (cycled : Bool) (raw : Nat)
    (h1 : hasBits l.shape SBC_TG_1SHOT = true) (hce : l.changeEnable = false) :
    ledOutput l cycled raw = some 0 := by
  have ho : outputOverride l = true := by
    rw [outputOverride_iff]
    exact Or.inl ⟨h1, hce⟩
  simp [ledOutput, ho]

theorem onLed_trigger (n i : Nat) (c : Call) (l : Led)
    (hk : c.keepsTriggerHigh n i = true) (h : 512 ≤ l.triggerIP) :
    512 ≤ (c.onLed n i l).triggerIP := by
  cases c with
  | tick rnd =>
    simp only [Call.onLed]
    rw [(tickLed_fields l).2.2.2.2]; exact h
  | setRate led val => simp only [Call.onLed]; split <;> exact h
  | setScale led val => simp only [Call.onLed]; split <;> exact h
  | setTriggerIP led val =>
    simp only [Call.keepsTriggerHigh, Bool.or_eq_true, bne_iff_ne, ne_eq,
      decide_eq_true_eq] at hk
    simp only [Call.onLed]
    split
    · next hj =>
      rcases hk with hk | hk
      · exact absurd hj hk
      · exact hk
    · exact h
  | setPattern led shape phase => simp only [Call.onLed]; split <;> exact h

/-- Along a run in which the trigger value of a one-shot LED stays at 512 or more and
its previous trigger value is already 512 or more, no new shot starts: once
`changeEnable` is false it stays false and the counter keeps its value. -/
theorem run_no_edge (cs : List Call) (b b1 : Bank) (i : Nat) (ended : Prop) (c0 : Int)
    (hi : i < b.numLeds)
    (hcs : ∀ c ∈ cs, c.setsPatternOf b.numLeds i = false
      ∧ c.keepsTriggerHigh b.numLeds i = true)
    (h1 : hasBits (b.leds i).shape SBC_TG_1SHOT = true)
    (htrig : 512 ≤ (b.leds i).triggerIP) (hprev : 512 ≤ (b.leds i).prevTriggerIP)
    (hend : ended → (b.leds i).changeEnable = false ∧ (b.leds i).counter = c0)
    (hrun : run b cs = some b1) :
    hasBits (b1.leds i).shape SBC_TG_1SHOT = true
    ∧ 512 ≤ (b1.leds i).triggerIP ∧ 512 ≤ (b1.leds i).prevTriggerIP
    ∧ (ended → (b1.leds i).changeEnable = false ∧ (b1.leds i).counter = c0) := by
  induction cs generalizing b with
  | nil =>
    simp only [run, Option.some.injEq] at hrun
    subst hrun
    exact ⟨h1, htrig, hprev, hend⟩
  | cons c cs ih =>
    obtain ⟨b2, hstep, hrest⟩ := run_cons b c cs b1 hrun
    have hn := step_numLeds b b2 c hstep
    have hl := step_led b b2 c i hi hstep
    obtain ⟨hc, hk⟩ := hcs c (List.mem_cons_self _ _)
    have hcs2 : ∀ c1 ∈ cs, c1.setsPatternOf b2.numLeds i = false
        ∧ c1.keepsTriggerHigh b2.numLeds i = true := fun c1 hc1 => by
      rw [hn]; exact hcs c1 (List.mem_cons_of_mem _ hc1)
    have ht2 : 512 ≤ (b2.leds i).triggerIP := by
      rw [hl]; exact onLed_trigger b.numLeds i c _ hk htrig
    by_cases ht : c.isTick = true
    · obtain ⟨rnd, rfl⟩ := isTick_eq c ht
      have hl2 : b2.leds i = tickLed (b.leds i) := hl
      refine ih b2 (by omega) hcs2 ?_ ht2 ?_ ?_ hrest
      · rw [hl2, (tickLed_fields (b.leds i)).2.1]; exact h1
      · rw [hl2, tickLed_prev _ h1]; exact htrig
      · intro he
        obtain ⟨e1, e2⟩ := hend he
        obtain ⟨n1, n2⟩ := tickLed_no_edge (b.leds i) h1 e1 (fun h => by omega)
        rw [hl2]
        exact ⟨n1, n2.trans e2⟩
    · have htf : c.isTick = false := by simpa using ht
      obtain ⟨o1, o2, _, o4, o5⟩ := onLed_control b.numLeds i c (b.leds i) hc htf
      refine ih b2 (by omega) hcs2 ?_ ht2 ?_ ?_ hrest
      · rw [hl, o1]; exact h1
      · rw [hl, o5]; exact hprev
      · rw [hl, o2, o4]; exact hend

/-! ## Miss cycles -/

/-- The second loop keeps `cycle` without a wrap; a wrap resets it when it has reached
`missLen` and counts one more otherwise. -/
theorem advanceLed_cycle (l : Led) (hk : l.cycle ≤ missLen l.shape) :
    (advanceLed l).1.shape = l.shape
    ∧ (advanceLed l).1.cycle
      = if (advanceLed l).2 = true then
          (if l.cycle = missLen l.shape then 0 else l.cycle + 1)
        else l.cycle := by
  have hm := miss_bits_iff l.shape
  have h3 := missLen_le l.shape
  have e : (if hasBits l.shape SBC_WSMOD_MISS2 = true then 2 else 0)
      + (if hasBits l.shape SBC_WSMOD_MISS1 = true then 1 else 0) = missLen l.shape := rfl
  unfold advanceLed
  simp only [e]
  by_cases hce : l.changeEnable = true
  · by_cases hw : int16 (l.counter + l.rate) ≥ 2048
    · by_cases hb : l.shape &&& (SBC_WSMOD_MISS2 + SBC_WSMOD_MISS1) > 0
      · by_cases hc : l.cycle = missLen l.shape
        · simp [hce, hw, hb, hc]
        · simp [hce, hw, hb, hc]
          omega
      · have h0 : missLen l.shape = 0 := by
          have := mt hm.mpr hb
          omega
        have hc0 : l.cycle = 0 := by omega
        simp [hce, hw, hb, h0, hc0]
    · simp [hce, hw]
  · simp [hce]

theorem tickLed_cycle (l : Led) (hk : l.cycle ≤ missLen l.shape) :
    (tickLed l).cycle
      = if wraps l = true then (if l.cycle = missLen l.shape then 0 else l.cycle + 1)
        else l.cycle := by
  obtain ⟨_, _, g3, _, _, _, g7⟩ := gateLed_fields l
  have := (advanceLed_cycle (gateLed l) (by rw [g3, g7]; exact hk)).2
  rw [g3, g7] at this
  exact this

/-- One step of the count of wraps modulo `missLen + 1`. -/
theorem cycle_mod_step (m w k : Nat) (wr : Bool) (hm : m ≤ 3) (hk : k = w % (m + 1)) :
    (if wr = true then (if k = m then 0 else k + 1) else k)
      = (w + (if wr = true then 1 else 0)) % (m + 1) := by
  subst hk
  cases wr
  · simp
  · simp only [if_true]
    interval_cases m
    · simp [Nat.mod_one]
    · split <;> omega
    · split <;> omega
    · split <;> omega

/-- Along a run without `setPattern` for a LED, `cycle` is the number of wraps of that
LED modulo `missLen + 1`. -/
theorem run_cycle_mod (cs : List Call) (b b1 : Bank) (i : Nat) (s w0 : Nat)
    (hi : i < b.numLeds) (hcs : ∀ c ∈ cs, c.setsPatternOf b.numLeds i = false)
    (hs : (b.leds i).shape = s) (hinv : (b.leds i).cycle = w0 % (missLen s + 1))
    (hrun : run b cs = some b1) :
    (b1.leds i).shape = s
    ∧ (b1.leds i).cycle = (w0 + wrapCount b i cs) % (missLen s + 1) := by
  induction cs generalizing b w0 with
  | nil =>
    simp only [run, Option.some.injEq] at hrun
    subst hrun
    exact ⟨hs, by simpa [wrapCount] using hinv⟩
  | cons c cs ih =>
    obtain ⟨b2, hstep, hrest⟩ := run_cons b c cs b1 hrun
    have hn := step_numLeds b b2 c hstep
    have hl := step_led b b2 c i hi hstep
    have hc := hcs c (List.mem_cons_self _ _)
    have hcs2 : ∀ c1 ∈ cs, c1.setsPatternOf b2.numLeds i = false := fun c1 hc1 => by
      rw [hn]; exact hcs c1 (List.mem_cons_of_mem _ hc1)
    have hlt : w0 % (missLen s + 1) ≤ missLen s :=
      Nat.lt_succ_iff.mp (Nat.mod_lt w0 (Nat.succ_pos (missLen s)))
    by_cases ht : c.isTick = true
    · obtain ⟨rnd, rfl⟩ := isTick_eq c ht
      have hl2 : b2.leds i = tickLed (b.leds i) := hl
      have hb2 : b2 = (tick b rnd).1 := by
        simp only [step, Option.some.injEq] at hstep
        exact hstep.symm
      rw [wrapCount_tick b i rnd cs hi, ← hb2]
      have hs2 : (b2.leds i).shape = s := by
        rw [hl2, (tickLed_fields (b.leds i)).2.1]; exact hs
      have hcy : (b2.leds i).cycle
          = (w0 + (if wraps (b.leds i) = true then 1 else 0)) % (missLen s + 1) := by
        rw [hl2, tickLed_cycle _ (by rw [hs, hinv]; exact hlt), hs]
        exact cycle_mod_step (missLen s) w0 _ _ (missLen_le s) hinv
      have := ih b2 (w0 + (if wraps (b.leds i) = true then 1 else 0)) (by omega) hcs2 hs2
        hcy hrest
      rw [Nat.add_assoc] at this
      exact this
    · have htf : c.isTick = false := by simpa using ht
      obtain ⟨o1, _, o3, _, _⟩ := onLed_control b.numLeds i c (b.leds i) hc htf
      rw [wrapCount_control b b2 i c cs hstep htf]
      exact ih b2 w0 (by omega) hcs2 (by rw [hl, o1]; exact hs)
        (by rw [hl, o3]; exact hinv) hrest

/-- A LED in a miss cycle after the first two loops is sent 0. -/
theorem ledOutput_miss (l : Led) (cycled : Bool) (raw : Nat) (hc : l.cycle ≠ 0) :
    ledOutput l cycled raw = some 0 := by
  have ho : outputOverride l = true := by
    rw [outputOverride_iff]
    exact Or.inr (Or.inr hc)
  simp [ledOutput, ho]

/-! ## Gate mode -/

theorem gateLed_gate (l : Led) (h1 : hasBits l.shape SBC_TG_1SHOT = false) :
    gateLed l = { l with changeEnable := decide (l.triggerIP ≥ 512) } := by
  simp [gateLed, h1]

/-- A `tick` with the gate closed on a LED without the one-shot bit changes neither
counter nor cycle. -/
theorem tickLed_gate_closed (l : Led) (h1 : hasBits l.shape SBC_TG_1SHOT = false)
    (htrig : l.triggerIP < 512) :
    (tickLed l).changeEnable = false ∧ (tickLed l).counter = l.counter
    ∧ (tickLed l).cycle = l.cycle := by
  have hdis : (gateLed l).changeEnable = false := by
    rw [gateLed_gate l h1]
    simp only [decide_eq_false_iff_not, not_le, ge_iff_le]
    exact htrig
  obtain ⟨d1, d2, d3, _⟩ := tickLed_disabled l hdis
  exact ⟨d1, d2, d3⟩

/-- A `tick` with the gate open on a LED without the one-shot bit adds the rate to the
counter and subtracts 2048 when the sum has reached it. -/
theorem tickLed_gate_open (l : Led) (h1 : hasBits l.shape SBC_TG_1SHOT = false)
    (htrig : 512 ≤ l.triggerIP) :
    (tickLed l).counter
      = if int16 (l.counter + l.rate) ≥ 2048 then int16 (l.counter + l.rate) - 2048
        else int16 (l.counter + l.rate) := by
  unfold tickLed
  rw [gateLed_gate l h1]
  have hd : decide (l.triggerIP ≥ 512) = true := by simpa using htrig
  unfold advanceLed
  simp only [hd, if_true]
  repeat' split
  all_goals rfl

/-- A LED with GATEOUT and without one-shot whose gate is closed is sent 0. -/
theorem ledOutput_gate_closed (l : Led) (cycled : Bool) (raw : Nat)
    (hgo : hasBits l.shape SBC_TG_GATEOUT = true) (h1 : hasBits l.shape SBC_TG_1SHOT = false)
    (hce : l.changeEnable = false) :
    ledOutput l cycled raw = some 0 := by
  have ho : outputOverride l = true := by
    rw [outputOverride_iff]
    exact Or.inr (Or.inl ⟨hgo, h1, hce⟩)
  simp [ledOutput, ho]

theorem onLed_trigger_low (n i : Nat) (c : Call) (l : Led)
    (hk : c.keepsTriggerLow n i = true) (h : l.triggerIP < 512) :
    (c.onLed n i l).triggerIP < 512 := by
  cases c with
  | tick rnd =>
    simp only [Call.onLed]
    rw [(tickLed_fields l).2.2.2.2]; exact h
  | setRate led val => simp only [Call.onLed]; split <;> exact h
  | setScale led val => simp only [Call.onLed]; split <;> exact h
  | setTriggerIP led val =>
    simp only [Call.keepsTriggerLow, Bool.or_eq_true, bne_iff_ne, ne_eq,
      decide_eq_true_eq] at hk
    simp only [Call.onLed]
    split
    · next hj =>
      rcases hk with hk | hk
      · exact absurd hj hk
      · exact hk
    · exact h
  | setPattern led shape phase => simp only [Call.onLed]; split <;> exact h

/-- While the trigger value of a LED without the one-shot bit stays below 512, its
counter and cycle keep their values through ticks and control writes. -/
theorem run_gate_closed (cs : List Call) (b b1 : Bank) (i : Nat) (hi : i < b.numLeds)
    (hcs : ∀ c ∈ cs, c.setsPatternOf b.numLeds i = false
      ∧ c.keepsTriggerLow b.numLeds i = true)
    (h1 : hasBits (b.leds i).shape SBC_TG_1SHOT = false)
    (htrig : (b.leds i).triggerIP < 512) (hrun : run b cs = some b1) :
    (b1.leds i).shape = (b.leds i).shape ∧ (b1.leds i).triggerIP < 512
    ∧ (b1.leds i).counter = (b.leds i).counter ∧ (b1.leds i).cycle = (b.leds i).cycle := by
  induction cs generalizing b with
  | nil =>
    simp only [run, Option.some.injEq] at hrun
    subst hrun
    exact ⟨rfl, htrig, rfl, rfl⟩
  | cons c cs ih =>
    obtain ⟨b2, hstep, hrest⟩ := run_cons b c cs b1 hrun
    have hn := step_numLeds b b2 c hstep
    have hl := step_led b b2 c i hi hstep
    obtain ⟨hc, hk⟩ := hcs c (List.mem_cons_self _ _)
    have hcs2 : ∀ c1 ∈ cs, c1.setsPatternOf b2.numLeds i = false
        ∧ c1.keepsTriggerLow b2.numLeds i = true := fun c1 hc1 => by
      rw [hn]; exact hcs c1 (List.mem_cons_of_mem _ hc1)
    have ht2 : (b2.leds i).triggerIP < 512 := by
      rw [hl]; exact onLed_trigger_low b.numLeds i c _ hk htrig
    have hfields : (b2.leds i).shape = (b.leds i).shape
        ∧ (b2.leds i).counter = (b.leds i).counter
        ∧ (b2.leds i).cycle = (b.leds i).cycle := by
      by_cases ht : c.isTick = true
      · obtain ⟨rnd, rfl⟩ := isTick_eq c ht
        have hl2 : b2.leds i = tickLed (b.leds i) := hl
        obtain ⟨_, g2, g3⟩ := tickLed_gate_closed (b.leds i) h1 htrig
        rw [hl2]
        exact ⟨(tickLed_fields (b.leds i)).2.1, g2, g3⟩
      · have htf : c.isTick = false := by simpa using ht
        obtain ⟨o1, _, o3, o4, _⟩ := onLed_control b.numLeds i c (b.leds i) hc htf
        rw [hl]
        exact ⟨o1, o4, o3⟩
    obtain ⟨f1, f2, f3⟩ := hfields
    obtain ⟨r1, r2, r3, r4⟩ := ih b2 (by omega) hcs2 (by rw [f1]; exact h1) ht2 hrest
    exact ⟨r1.trans f1, r2, r3.trans f2, r4.trans f3⟩

/-- Control writes (no `tick`, no `setPattern` for the LED) keep shape, counter and
cycle of a LED. -/
theorem run_control (cs : List Call) (b b1 : Bank) (i : Nat) (hi : i < b.numLeds)
    (hcs : ∀ c ∈ cs, c.setsPatternOf b.numLeds i = false ∧ c.isTick = false)
    (hrun : run b cs = some b1) :
    (b1.leds i).shape = (b.leds i).shape ∧ (b1.leds i).counter = (b.leds i).counter
    ∧ (b1.leds i).cycle = (b.leds i).cycle := by
  induction cs generalizing b with
  | nil =>
    simp only [run, Option.some.injEq] at hrun
    subst hrun
    exact ⟨rfl, rfl, rfl⟩
  | cons c cs ih =>
    obtain ⟨b2, hstep, hrest⟩ := run_cons b c cs b1 hrun
    have hn := step_numLeds b b2 c hstep
    have hl := step_led b b2 c i hi hstep
    obtain ⟨hc, htf⟩ := hcs c (List.mem_cons_self _ _)
    obtain ⟨o1, _, o3, o4, _⟩ := onLed_control b.numLeds i c (b.leds i) hc htf
    obtain ⟨r1, r2, r3⟩ := ih b2 (by omega)
      (fun c1 hc1 => by rw [hn]; exact hcs c1 (List.mem_cons_of_mem _ hc1)) hrest
    rw [hl] at r1 r2 r3
    exact ⟨r1.trans o1, r2.trans o4, r3.trans o3⟩

/-! ## Waveforms -/

/-- The base sample depends on the shape only through its three low bits. -/
theorem waveBase_congr (l0 l1 : Led) (cycled : Bool) (raw : Nat)
    (hsel : l1.shape &&& 7 = l0.shape &&& 7) (hc : l1.counter = l0.counter) :
    waveBase l1 cycled raw = waveBase l0 cycled raw := by
  simp only [waveBase, hsel, hc]

/-- Every waveform but RANDOM gives a base sample at every `tick`. -/
theorem waveBase_det (l : Led) (cycled : Bool) (raw : Nat)
    (hdet : l.shape &&& 7 ≠ SBC_WAVESHAPE_RND) :
    ∃ base, waveBase l cycled raw = some base := by
  unfold waveBase
  dsimp only
  repeat' split
  all_goals exact ⟨_, rfl⟩

theorem shapeOutput_plain (l : Led) (base : Int)
    (hn : hasBits l.shape SBC_WSMOD_INVERT = false) :
    shapeOutput l base
      = if int16 (shr (base * l.scale) 8) = 0 then 1 else int16 (shr (base * l.scale) 8) := by
  simp [shapeOutput, hn]

theorem shapeOutput_inverted (l : Led) (base : Int)
    (hi : hasBits l.shape SBC_WSMOD_INVERT = true) :
    shapeOutput l base
      = if int16 (255 - int16 (shr (base * l.scale) 8)) = 0 then 1
        else int16 (255 - int16 (shr (base * l.scale) 8)) := by
  simp [shapeOutput, hi]

/-- With base and scale in 0..255 the scaled value lies in 0..254 and fits an `int`. -/
theorem scaled_range (base scale : Int) (hb : 0 ≤ base ∧ base ≤ 255)
    (hs : 0 ≤ scale ∧ scale ≤ 255) :
    0 ≤ shr (base * scale) 8 ∧ shr (base * scale) 8 ≤ 254
    ∧ int16 (shr (base * scale) 8) = shr (base * scale) 8
    ∧ int16 (255 - shr (base * scale) 8) = 255 - shr (base * scale) 8 := by
  obtain ⟨hs1, hs2⟩ := hs
  obtain ⟨hb1, hb2⟩ := hb
  have m1 : 0 ≤ base * scale := mul_nonneg hb1 hs1
  have m2 : base * scale ≤ 255 * 255 := mul_le_mul hb2 hs2 hs1 (by norm_num)
  have e : shr (base * scale) 8 = base * scale / 256 := by rw [shr_eq_div]; norm_num
  rw [e]
  generalize base * scale = m at m1 m2
  unfold int16
  omega

theorem ledOutput_live (l : Led) (cycled : Bool) (raw : Nat) (hov : ¬ OverrideCase l) :
    ledOutput l cycled raw = (waveBase l cycled raw).map (shapeOutput l) := by
  have ho : outputOverride l = false := by
    rw [← outputOverride_iff] at hov
    simpa using hov
  simp [ledOutput, ho]

/-- The scaled sample grows with the base. -/
theorem scaled_mono (b1 b2 scale : Int) (h : b1 ≤ b2) (hs : 0 ≤ scale) :
    shr (b1 * scale) 8 ≤ shr (b2 * scale) 8 := by
  rw [shr_eq_div, shr_eq_div]
  exact Int.ediv_le_ediv (by norm_num) (mul_le_mul_of_nonneg_right h hs)

/-! ## C1 -/

/-- C1. Counter range invariant: on a freshly constructed bank, after any sequence of
calls in which every `setRate` value is in 0..1023 and every `setPattern` phase is not
negative (`setScale`, `setTriggerIP` and `tick` calls are arbitrary), the counter of
every LED of the bank lies in 0..2047. -/
theorem counter_range (mem : Bank) (numLeds : Nat) (cs : List Call)
    (hcs : ∀ c ∈ cs, c.counterSafe = true) (b : Bank)
    (hrun : run (ShapedBrightnessController mem numLeds) cs = some b)
    (i : Nat) (hi : i < b.numLeds) :
    0 ≤ (b.leds i).counter ∧ (b.leds i).counter ≤ 2047 :=
  (run_counterInv cs _ b hcs hrun (ctor_counterInv mem numLeds) i hi).1

theorem counter_range_witness :
    ∃ b, run (ShapedBrightnessController zeroMem 2) c1Calls = some b
      ∧ (1 < b.numLeds ∧ (b.leds 1).counter = 509)
      ∧ (0 ≤ (b.leds 1).counter ∧ (b.leds 1).counter ≤ 2047) :=
  ⟨_, rfl, by decide,
    counter_range zeroMem 2 c1Calls (by decide) _ rfl 1 (by decide)⟩

/-! ## C2 -/

/-- C2. Pattern round trip: for every `led < numLeds`, every shape and every phase that
is not negative, after `setPattern(led, shape, phase)` the call
`setPatternFromProgBytes(led, bytes)` on the bytes of `getPatternProgBytes(led)`
succeeds and leaves the LED with the same shape and with phase `phase mod 2048`; all
the cells of that LED are as `setPattern` left them. -/
theorem pattern_round_trip (b : Bank) (led shape : Nat) (phase : Int)
    (hled : led < b.numLeds) (hphase : 0 ≤ phase) :
    ∃ b1 b2, setPattern b led shape phase = some b1
      ∧ setPatternFromProgBytes b1 led (getPatternProgBytes b1 led) = some b2
      ∧ (b2.leds led).shape = shape ∧ (b2.leds led).phase = phase % 2048
      ∧ b2.leds led = b1.leds led := by
  have hn : 0 < b.numLeds := by omega
  have hmod : led % b.numLeds = led := Nat.mod_eq_of_lt hled
  obtain ⟨t1, t2, t3⟩ := tmod_2048_range phase hphase
  obtain ⟨b1, hb1⟩ : ∃ b1, setPattern b led shape phase = some b1 :=
    ⟨_, setter_some b led _ hn⟩
  have hn1 : b1.numLeds = b.numLeds := step_numLeds b b1 (.setPattern led shape phase) hb1
  have hl1 := step_led b b1 (.setPattern led shape phase) led hled hb1
  simp only [Call.onLed, hmod, if_true] at hl1
  obtain ⟨b2, hb2⟩ :
      ∃ b2, setPatternFromProgBytes b1 led (getPatternProgBytes b1 led) = some b2 :=
    ⟨_, setter_some b1 led _ (by omega)⟩
  have hl2 := step_led b1 b2 (.setPattern led _ _) led (by omega) hb2
  simp only [Call.onLed, hn1, hmod, if_true, getPatternProgBytes, List.getD_cons_zero,
    List.getD_cons_succ] at hl2
  have hp : (b1.leds led).phase = Int.tmod phase 2048 := by rw [hl1]
  rw [hp, decode_encode _ t1 t2] at hl2
  have u4 : Int.tmod (Int.tmod phase 2048) 2048 = Int.tmod phase 2048 := by
    rw [(tmod_2048_range _ t1).2.2]; omega
  rw [u4] at hl2
  refine ⟨b1, b2, hb1, hb2, ?_, ?_, ?_⟩
  · rw [hl2, hl1]
  · rw [hl2]; exact t3
  · rw [hl2, hl1]

theorem pattern_round_trip_witness :
    ∃ b1 b2, setPattern (ShapedBrightnessController zeroMem 3) 2 137 5000 = some b1
      ∧ setPatternFromProgBytes b1 2 (getPatternProgBytes b1 2) = some b2
      ∧ (b2.leds 2).shape = 137 ∧ (b2.leds 2).phase = 5000 % 2048
      ∧ b2.leds 2 = b1.leds 2 :=
  pattern_round_trip (ShapedBrightnessController zeroMem 3) 2 137 5000 (by decide) (by decide)

/-! ## C3 -/

/-- C3. `setPattern` postcondition and frame: on a bank with at least one LED, for
every led index, shape and phase that is not negative, `setPattern(led, shape, phase)`
succeeds and leaves LED `led mod numLeds` with the given shape, with phase and counter
both equal to `phase mod 2048`, with `cycle = 0` and `changeEnable = false`; the rate,
scale, trigger value and previous trigger value of that LED, every cell of every other
LED and the LED count are unchanged. -/
theorem setPattern_post (b : Bank) (led shape : Nat) (phase : Int)
    (hn : 0 < b.numLeds) (hphase : 0 ≤ phase) :
    ∃ b1, setPattern b led shape phase = some b1
      ∧ b1.numLeds = b.numLeds
      ∧ (b1.leds (led % b.numLeds)).shape = shape
      ∧ (b1.leds (led % b.numLeds)).phase = phase % 2048
      ∧ (b1.leds (led % b.numLeds)).counter = phase % 2048
      ∧ (b1.leds (led % b.numLeds)).cycle = 0
      ∧ (b1.leds (led % b.numLeds)).changeEnable = false
      ∧ (b1.leds (led % b.numLeds)).rate = (b.leds (led % b.numLeds)).rate
      ∧ (b1.leds (led % b.numLeds)).scale = (b.leds (led % b.numLeds)).scale
      ∧ (b1.leds (led % b.numLeds)).triggerIP = (b.leds (led % b.numLeds)).triggerIP
      ∧ (b1.leds (led % b.numLeds)).prevTriggerIP = (b.leds (led % b.numLeds)).prevTriggerIP
      ∧ ∀ j, j ≠ led % b.numLeds → b1.leds j = b.leds j := by
  obtain ⟨_, _, t3⟩ := tmod_2048_range phase hphase
  refine ⟨_, setter_some b led _ hn, rfl, ?_⟩
  simp only [setLed_leds, if_true, t3, true_and]
  intro j hj
  rw [if_neg hj]

theorem setPattern_post_witness :
    ∃ b1, setPattern (ShapedBrightnessController zeroMem 3) 7 137 5000 = some b1
      ∧ b1.numLeds = (ShapedBrightnessController zeroMem 3).numLeds
      ∧ (b1.leds (7 % (ShapedBrightnessController zeroMem 3).numLeds)).shape = 137
      ∧ (b1.leds (7 % (ShapedBrightnessController zeroMem 3).numLeds)).phase = 5000 % 2048
      ∧ (b1.leds (7 % (ShapedBrightnessController zeroMem 3).numLeds)).counter = 5000 % 2048
      ∧ (b1.leds (7 % (ShapedBrightnessController zeroMem 3).numLeds)).cycle = 0
      ∧ (b1.leds (7 % (ShapedBrightnessController zeroMem 3).numLeds)).changeEnable = false
      ∧ (b1.leds (7 % (ShapedBrightnessController zeroMem 3).numLeds)).rate
          = ((ShapedBrightnessController zeroMem 3).leds
              (7 % (ShapedBrightnessController zeroMem 3).numLeds)).rate
      ∧ (b1.leds (7 % (ShapedBrightnessController zeroMem 3).numLeds)).scale
          = ((ShapedBrightnessController zeroMem 3).leds
              (7 % (ShapedBrightnessController zeroMem 3).numLeds)).scale
      ∧ (b1.leds (7 % (ShapedBrightnessController zeroMem 3).numLeds)).triggerIP
          = ((ShapedBrightnessController zeroMem 3).leds
              (7 % (ShapedBrightnessController zeroMem 3).numLeds)).triggerIP
      ∧ (b1.leds (7 % (ShapedBrightnessController zeroMem 3).numLeds)).prevTriggerIP
          = ((ShapedBrightnessController zeroMem 3).leds
              (7 % (ShapedBrightnessController zeroMem 3).numLeds)).prevTriggerIP
      ∧ ∀ j, j ≠ 7 % (ShapedBrightnessController zeroMem 3).numLeds →
          b1.leds j = (ShapedBrightnessController zeroMem 3).leds j :=
  setPattern_post (ShapedBrightnessController zeroMem 3) 7 137 5000 (by decide) (by decide)

/-! ## C4 -/

/-- C4. Control setters: on a bank with at least one LED, for every led index and every
value, `setRate(led, v)` stores `v >> 2` in the rate of LED `led mod numLeds`,
`setScale(led, v)` stores `v >> 2` in its scale and `setTriggerIP(led, v)` stores `v`
in its trigger value; each call succeeds, changes no other cell of that LED, no cell of
any other LED, and not the LED count. -/
theorem control_setters (b : Bank) (led : Nat) (v : Int) (hn : 0 < b.numLeds) :
    (∃ b1, setRate b led v = some b1
      ∧ b1.numLeds = b.numLeds
      ∧ b1.leds (led % b.numLeds) = { b.leds (led % b.numLeds) with rate := shr v 2 }
      ∧ ∀ j, j ≠ led % b.numLeds → b1.leds j = b.leds j)
    ∧ (∃ b1, setScale b led v = some b1
      ∧ b1.numLeds = b.numLeds
      ∧ b1.leds (led % b.numLeds) = { b.leds (led % b.numLeds) with scale := shr v 2 }
      ∧ ∀ j, j ≠ led % b.numLeds → b1.leds j = b.leds j)
    ∧ (∃ b1, setTriggerIP b led v = some b1
      ∧ b1.numLeds = b.numLeds
      ∧ b1.leds (led % b.numLeds) = { b.leds (led % b.numLeds) with triggerIP := v }
      ∧ ∀ j, j ≠ led % b.numLeds → b1.leds j = b.leds j) := by
  refine ⟨⟨_, setter_some b led _ hn, rfl, ?_, ?_⟩, ⟨_, setter_some b led _ hn, rfl, ?_, ?_⟩,
    ⟨_, setter_some b led _ hn, rfl, ?_, ?_⟩⟩
  all_goals simp only [setLed_leds, if_true]
  all_goals
    intro j hj
    rw [if_neg hj]

/-- The right shift by two places is the division by 4 rounded down. -/
theorem shr_two (v : Int) : shr v 2 = v / 4 := by
  rw [shr_eq_div]; norm_num

theorem control_setters_witness :
    (∃ b1, setRate (ShapedBrightnessController zeroMem 3) 7 1023 = some b1
      ∧ b1.numLeds = (ShapedBrightnessController zeroMem 3).numLeds
      ∧ b1.leds (7 % (ShapedBrightnessController zeroMem 3).numLeds)
          = { (ShapedBrightnessController zeroMem 3).leds
                (7 % (ShapedBrightnessController zeroMem 3).numLeds) with rate := shr 1023 2 }
      ∧ ∀ j, j ≠ 7 % (ShapedBrightnessController zeroMem 3).numLeds →
          b1.leds j = (ShapedBrightnessController zeroMem 3).leds j)
    ∧ (∃ b1, setScale (ShapedBrightnessController zeroMem 3) 7 1023 = some b1
      ∧ b1.numLeds = (ShapedBrightnessController zeroMem 3).numLeds
      ∧ b1.leds (7 % (ShapedBrightnessController zeroMem 3).numLeds)
          = { (ShapedBrightnessController zeroMem 3).leds
                (7 % (ShapedBrightnessController zeroMem 3).numLeds) with scale := shr 1023 2 }
      ∧ ∀ j, j ≠ 7 % (ShapedBrightnessController zeroMem 3).numLeds →
          b1.leds j = (ShapedBrightnessController zeroMem 3).leds j)
    ∧ (∃ b1, setTriggerIP (ShapedBrightnessController zeroMem 3) 7 1023 = some b1
      ∧ b1.numLeds = (ShapedBrightnessController zeroMem 3).numLeds
      ∧ b1.leds (7 % (ShapedBrightnessController zeroMem 3).numLeds)
          = { (ShapedBrightnessController zeroMem 3).leds
                (7 % (ShapedBrightnessController zeroMem 3).numLeds) with triggerIP := 1023 }
      ∧ ∀ j, j ≠ 7 % (ShapedBrightnessController zeroMem 3).numLeds →
          b1.leds j = (ShapedBrightnessController zeroMem 3).leds j) :=
  control_setters (ShapedBrightnessController zeroMem 3) 7 1023 (by decide)

/-! ## C5 -/

/-- C5. Encoding format: for every `led < numLeds` whose pattern was set by
`setPattern(led, shape, phase)` with a phase that is not negative, and after any
further calls other than `setPattern` for that LED, `getPatternProgBytes(led)` gives
exactly the four bytes `[shape, 0, p div 256, p mod 256]` with `p = phase mod 2048`;
the second byte is 0 and the third byte is at most 7. -/
theorem encoding_format (b : Bank) (led shape : Nat) (phase : Int)
    (hled : led < b.numLeds) (hphase : 0 ≤ phase) (cs : List Call)
    (hcs : ∀ c ∈ cs, c.setsPatternOf b.numLeds led = false) :
    ∃ b1 b2, setPattern b led shape phase = some b1 ∧ run b1 cs = some b2
      ∧ getPatternProgBytes b2 led
          = [shape, 0, (phase % 2048 / 256).toNat, (phase % 2048 % 256).toNat]
      ∧ (phase % 2048 / 256).toNat ≤ 7 := by
  have hn : 0 < b.numLeds := by omega
  have hmod : led % b.numLeds = led := Nat.mod_eq_of_lt hled
  obtain ⟨t1, t2, t3⟩ := tmod_2048_range phase hphase
  obtain ⟨b1, hb1⟩ : ∃ b1, setPattern b led shape phase = some b1 :=
    ⟨_, setter_some b led _ hn⟩
  have hn1 : b1.numLeds = b.numLeds := step_numLeds b b1 (.setPattern led shape phase) hb1
  have hl1 := step_led b b1 (.setPattern led shape phase) led hled hb1
  simp only [Call.onLed, hmod, if_true] at hl1
  obtain ⟨b2, hb2, _⟩ := run_isSome cs b1 (by omega)
  obtain ⟨r1, r2⟩ := run_pattern cs b1 b2 led (by omega) (by rw [hn1]; exact hcs) hb2
  refine ⟨b1, b2, hb1, hb2, ?_, ?_⟩
  · simp only [getPatternProgBytes, r1, r2, hl1, t3]
    rw [(highByte_small _ (by omega) (by omega)).1]
    rfl
  · have : phase % 2048 / 256 ≤ 7 := by omega
    omega

theorem encoding_format_witness :
    ∃ b1 b2, setPattern (ShapedBrightnessController zeroMem 3) 2 137 5000 = some b1
      ∧ run b1 c1Calls = some b2
      ∧ getPatternProgBytes b2 2
          = [137, 0, ((5000 : Int) % 2048 / 256).toNat, ((5000 : Int) % 2048 % 256).toNat]
      ∧ ((5000 : Int) % 2048 / 256).toNat ≤ 7 :=
  encoding_format (ShapedBrightnessController zeroMem 3) 2 137 5000 (by decide)
    (by decide) c1Calls (by decide)

/-! ## C6 -/

/-- C6. Output range: in every state reached from construction by calls with control
values in 0..1023 and phases in 0..2047, every stored scale of the bank lies in 0..255,
and every `SetBrightness(output, i)` call made by a `tick` from that state has
`0 ≤ output ≤ 255` and `i < numLeds`, for every shape. -/
theorem output_range (mem : Bank) (numLeds : Nat) (cs : List Call)
    (hcs : ∀ c ∈ cs, c.inRange = true) (b : Bank)
    (hrun : run (ShapedBrightnessController mem numLeds) cs = some b) :
    (∀ i, i < b.numLeds → 0 ≤ (b.leds i).scale ∧ (b.leds i).scale ≤ 255)
    ∧ ∀ rnd, ∀ p ∈ (tick b rnd).2, (0 ≤ p.1 ∧ p.1 ≤ 255) ∧ p.2 < b.numLeds := by
  obtain ⟨hcnt, hscale⟩ := run_rangeInv cs _ b hcs hrun
    ⟨ctor_counterInv mem numLeds, ctor_scaleInv mem numLeds⟩
  refine ⟨hscale, ?_⟩
  rintro rnd ⟨v, i⟩ hp
  obtain ⟨hi, raw, hout⟩ := tick_sent b rnd v i hp
  refine ⟨?_, hi⟩
  rw [tick_leds, if_pos hi] at hout
  obtain ⟨_, _, f3, f4, _⟩ := tickLed_fields (b.leds i)
  exact ledOutput_range _ _ raw v (tickLed_counter _ (hcnt i hi).1 (hcnt i hi).2)
    (by rw [f4]; exact hscale i hi) hout

theorem output_range_witness :
    ∃ b, run (ShapedBrightnessController zeroMem 2) c6Calls = some b
      ∧ (tick b rnd100).2 = [(1, 0), (193, 1)]
      ∧ ((∀ i, i < b.numLeds → 0 ≤ (b.leds i).scale ∧ (b.leds i).scale ≤ 255)
        ∧ ∀ rnd, ∀ p ∈ (tick b rnd).2, (0 ≤ p.1 ∧ p.1 ≤ 255) ∧ p.2 < b.numLeds) :=
  ⟨_, rfl, by decide, output_range zeroMem 2 c6Calls (by decide) _ rfl⟩

/-! ## C7 -/

/-- C7. True zero is reserved for the overrides: for every LED and every `tick` in
which a brightness is sent for that LED, the brightness is 0 if and only if, after the
first two loops of that `tick`, one of the three override cases holds ((a) one-shot bit
set and `changeEnable` false, (b) GATEOUT set, one-shot not set and `changeEnable`
false, (c) `cycle != 0`).  In every other case the brightness is at least 1, for every
waveform and INVERT flag, with the scale in its range 0..255 and the counter in its
range 0..2047. -/
theorem zero_reserved_for_override (b : Bank) (rnd : Nat → Nat) (i : Nat) (v : Int)
    (hv : (v, i) ∈ (tick b rnd).2) :
    (v = 0 ↔ OverrideCase ((tick b rnd).1.leds i))
    ∧ (¬ OverrideCase ((tick b rnd).1.leds i) →
        (0 ≤ ((tick b rnd).1.leds i).counter ∧ ((tick b rnd).1.leds i).counter ≤ 2047) →
        (0 ≤ ((tick b rnd).1.leds i).scale ∧ ((tick b rnd).1.leds i).scale ≤ 255) →
        1 ≤ v) := by
  obtain ⟨_, raw, hout⟩ := tick_sent b rnd v i hv
  exact ⟨ledOutput_zero_iff _ _ raw v hout,
    fun hov hc hs => ledOutput_pos _ _ raw v hc hs hov hout⟩

theorem zero_reserved_for_override_witness :
    ((tick c7Bank rnd100).2 = [(0, 0), (254, 1)])
    ∧ (((0 : Int) = 0 ↔ OverrideCase ((tick c7Bank rnd100).1.leds 0))
      ∧ (¬ OverrideCase ((tick c7Bank rnd100).1.leds 0) →
          (0 ≤ ((tick c7Bank rnd100).1.leds 0).counter
            ∧ ((tick c7Bank rnd100).1.leds 0).counter ≤ 2047) →
          (0 ≤ ((tick c7Bank rnd100).1.leds 0).scale
            ∧ ((tick c7Bank rnd100).1.leds 0).scale ≤ 255) →
          1 ≤ (0 : Int))) :=
  ⟨by decide, zero_reserved_for_override c7Bank rnd100 0 0 (by decide)⟩

/-! ## C8 -/

/-- C8, evaluation at the failing input.  In `c8Bank` LED 1 has the RANDOM waveform in
the default gate mode (neither GATEOUT nor one-shot) with its gate closed
(`triggerIP < 512`): `tick` leaves every cell of LED 1 as it was, its counter does not
reach 2048 and it is in no override case.  The counter of LED 0 does reach 2048, and
`tick` draws a sample and sends a new brightness for LED 1 all the same: 99 when
`random()` gives 100, 199 when it gives 200.  So "a brightness is sent for LED 1 iff
the counter of LED 1 wrapped" fails. -/
theorem random_own_wrap_counterexample :
    (c8Bank.leds 1).shape &&& 7 = SBC_WAVESHAPE_RND
    ∧ ¬ OverrideCase ((tick c8Bank rnd100).1.leds 1)
    ∧ wraps (c8Bank.leds 1) = false
    ∧ wraps (c8Bank.leds 0) = true
    ∧ sentTo (tick c8Bank rnd100).2 1 = [99]
    ∧ ¬ (sentTo (tick c8Bank rnd100).2 1 ≠ [] ↔ wraps (c8Bank.leds 1) = true)
    ∧ hasBits (c8Bank.leds 1).shape SBC_TG_GATEOUT = false
    ∧ hasBits (c8Bank.leds 1).shape SBC_TG_1SHOT = false
    ∧ (c8Bank.leds 1).triggerIP < 512
    ∧ (tick c8Bank rnd100).1.leds 1 = c8Bank.leds 1
    ∧ sentTo (tick c8Bank fun _ => 200).2 1 = [199] := by
  decide

/-! ## C9 -/

/-- C9. One-shot length: let LED `i` have the one-shot bit (GATEOUT set or not), be idle
(`changeEnable` false, `cycle` 0) with `prevTriggerIP < 512` and `triggerIP >= 512`, and
let no `setPattern` for LED `i` follow; wraps of LED `i` are counted from this state on.
(1) After the `tick` that sees the trigger and any further calls `cs` (ticks, writes of
any control values), `changeEnable` is true as long as the counter has wrapped at most
`missLen` times.  (2) After any calls `cs2` and a final `tick` in which the counter
wraps for the `(1 + missLen)`-th time (the final `tick` is the triggering one when `cs2`
is empty), `changeEnable` is false and `cycle` is 0.  Every such run completes. -/
theorem oneShot_length (b : Bank) (i : Nat) (hi : i < b.numLeds)
    (h1 : hasBits (b.leds i).shape SBC_TG_1SHOT = true)
    (hidle : (b.leds i).changeEnable = false) (hcyc : (b.leds i).cycle = 0)
    (hprev : (b.leds i).prevTriggerIP < 512) (htrig : 512 ≤ (b.leds i).triggerIP)
    (rnd : Nat → Nat) (cs : List Call)
    (hcs : ∀ c ∈ cs, c.setsPatternOf b.numLeds i = false)
    (cs2 : List Call) (rnd2 : Nat → Nat)
    (hcs2 : ∀ c ∈ cs2, c.setsPatternOf b.numLeds i = false) :
    (∃ b1, run b (Call.tick rnd :: cs) = some b1
      ∧ (wrapCount b i (Call.tick rnd :: cs) ≤ missLen (b.leds i).shape →
          (b1.leds i).changeEnable = true))
    ∧ (∃ b2, run b (cs2 ++ [Call.tick rnd2]) = some b2
      ∧ (wrapCount b i cs2 = missLen (b.leds i).shape →
          wrapCount b i (cs2 ++ [Call.tick rnd2]) = missLen (b.leds i).shape + 1 →
          (b2.leds i).changeEnable = false ∧ (b2.leds i).cycle = 0)) := by
  have hn : 0 < b.numLeds := by omega
  constructor
  · obtain ⟨b1, hrun, _⟩ := run_isSome (Call.tick rnd :: cs) b hn
    refine ⟨b1, hrun, fun hw => ?_⟩
    obtain ⟨b0, hstep, hrest⟩ := run_cons b _ cs b1 hrun
    have hb0 : b0 = (tick b rnd).1 := by
      simp only [step, Option.some.injEq] at hstep
      exact hstep.symm
    have hn0 : b0.numLeds = b.numLeds := by rw [hb0, tick_numLeds]
    have hl0 : b0.leds i = tickLed (b.leds i) := by rw [hb0, tick_leds, if_pos hi]
    have hen : (gateLed (b.leds i)).changeEnable = true := by
      rw [gateLed_oneShot _ h1]
      simp [hidle, htrig, hprev]
    rw [wrapCount_tick b i rnd cs hi, ← hb0] at hw
    have hs0 : (b0.leds i).shape = (b.leds i).shape := by
      rw [hl0, (tickLed_fields (b.leds i)).2.1]
    obtain ⟨t1, t2, _⟩ := tickLed_oneShot (b.leds i) h1 hen (by omega)
    have := (run_shot cs b0 b1 i (b.leds i).shape
      (if wraps (b.leds i) = true then 1 else 0) True (by omega)
      (by rw [hn0]; exact hcs) h1 hs0
      (fun hw0 => by
        rw [hl0]
        by_cases hwr : wraps (b.leds i) = true
        · rw [if_pos hwr] at hw0 ⊢
          obtain ⟨r1, r2⟩ := t2 hwr (by omega)
          exact ⟨by rw [r2, hcyc], fun _ => r1⟩
        · have hwf : wraps (b.leds i) = false := by simpa using hwr
          rw [if_neg hwr]
          obtain ⟨r1, r2⟩ := t1 hwf
          exact ⟨by rw [r2, hcyc], fun _ => r1⟩)
      hrest).2 hw
    exact this.2 trivial
  · obtain ⟨b1, hrun, hn1⟩ := run_isSome cs2 b hn
    refine ⟨(tick b1 rnd2).1, run_append_tick cs2 b b1 rnd2 hrun, fun hw1 hw2 => ?_⟩
    obtain ⟨hs1, hinv⟩ := run_shot cs2 b b1 i (b.leds i).shape 0 False hi hcs2 h1 rfl
      (fun _ => ⟨hcyc, fun h => absurd h not_false⟩) hrun
    rw [wrapCount_append_tick cs2 b b1 i rnd2 hi hrun] at hw2
    have hwr : wraps (b1.leds i) = true := by
      by_contra hne
      rw [if_neg hne] at hw2
      omega
    have hc1 : (b1.leds i).cycle = missLen (b.leds i).shape := by
      have := (hinv (by omega)).1
      omega
    rw [tick_leds, if_pos (by omega)]
    obtain ⟨_, _, t3⟩ := tickLed_oneShot (b1.leds i) (by rw [hs1]; exact h1)
      (wraps_enabled _ hwr) (by rw [hs1]; omega)
    exact t3 hwr (by rw [hs1]; exact hc1)

theorem oneShot_length_witness :
    (wrapCount c9Bank 0
        [Call.tick rnd100, Call.setTriggerIP 0 0, Call.tick rnd100, Call.tick rnd100] = 1
      ∧ missLen (c9Bank.leds 0).shape = 1
      ∧ wrapCount c9Bank 0 [Call.tick rnd100, Call.tick rnd100, Call.tick rnd100] = 1
      ∧ wrapCount c9Bank 0
          ([Call.tick rnd100, Call.tick rnd100, Call.tick rnd100] ++ [Call.tick rnd100]) = 2)
    ∧ ((∃ b1, run c9Bank
          (Call.tick rnd100 :: [Call.setTriggerIP 0 0, Call.tick rnd100, Call.tick rnd100])
          = some b1
        ∧ (wrapCount c9Bank 0
            (Call.tick rnd100 :: [Call.setTriggerIP 0 0, Call.tick rnd100, Call.tick rnd100])
            ≤ missLen (c9Bank.leds 0).shape →
            (b1.leds 0).changeEnable = true))
      ∧ (∃ b2, run c9Bank
          ([Call.tick rnd100, Call.tick rnd100, Call.tick rnd100] ++ [Call.tick rnd100])
          = some b2
        ∧ (wrapCount c9Bank 0 [Call.tick rnd100, Call.tick rnd100, Call.tick rnd100]
            = missLen (c9Bank.leds 0).shape →
            wrapCount c9Bank 0
              ([Call.tick rnd100, Call.tick rnd100, Call.tick rnd100] ++ [Call.tick rnd100])
              = missLen (c9Bank.leds 0).shape + 1 →
            (b2.leds 0).changeEnable = false ∧ (b2.leds 0).cycle = 0))) :=
  ⟨by decide,
    oneShot_length c9Bank 0 (by decide) (by decide) (by decide) (by decide) (by decide)
      (by decide) rnd100 [Call.setTriggerIP 0 0, Call.tick rnd100, Call.tick rnd100]
      (by decide) [Call.tick rnd100, Call.tick rnd100, Call.tick rnd100] rnd100 (by decide)⟩

/-! ## C10 -/

/-- C10. A one-shot stays idle without a new rising edge.  For a LED `i` with the
one-shot bit: (1) a `tick` at whose end `changeEnable` is false sends exactly the
brightness 0 for it (INVERT set or not); (2) `changeEnable` goes from false to true only
in a `tick` that starts with `prevTriggerIP < 512` and `triggerIP >= 512`; (3) if the
trigger value is 512 or more at a `tick` and every later write to it is 512 or more,
with no `setPattern` for the LED, then from any later state `b1` in which the shot has
ended (`changeEnable` false) on, after any further calls `cs2` and in a further `tick`,
`changeEnable` stays false, the counter keeps the value it had in `b1`, and the
brightness sent is 0. -/
theorem oneShot_stays_idle (b : Bank) (i : Nat) (hi : i < b.numLeds)
    (h1 : hasBits (b.leds i).shape SBC_TG_1SHOT = true)
    (rnd : Nat → Nat) (cs1 cs2 : List Call) (rnd2 : Nat → Nat)
    (hcs : ∀ c ∈ cs1 ++ cs2, c.setsPatternOf b.numLeds i = false
      ∧ c.keepsTriggerHigh b.numLeds i = true) :
    (((tick b rnd).1.leds i).changeEnable = false → sentTo (tick b rnd).2 i = [0])
    ∧ ((b.leds i).changeEnable = false → ((tick b rnd).1.leds i).changeEnable = true →
        (b.leds i).prevTriggerIP < 512 ∧ 512 ≤ (b.leds i).triggerIP)
    ∧ (512 ≤ (b.leds i).triggerIP →
        ∃ b1 b2, run b (Call.tick rnd :: cs1) = some b1 ∧ run b1 cs2 = some b2
          ∧ ((b1.leds i).changeEnable = false →
              (b2.leds i).changeEnable = false
              ∧ (b2.leds i).counter = (b1.leds i).counter
              ∧ ((tick b2 rnd2).1.leds i).changeEnable = false
              ∧ ((tick b2 rnd2).1.leds i).counter = (b1.leds i).counter
              ∧ sentTo (tick b2 rnd2).2 i = [0])) := by
  have hn : 0 < b.numLeds := by omega
  have hl : (tick b rnd).1.leds i = tickLed (b.leds i) := by rw [tick_leds, if_pos hi]
  have hsh : (tickLed (b.leds i)).shape = (b.leds i).shape := (tickLed_fields (b.leds i)).2.1
  refine ⟨fun hce => ?_, fun hce0 hce1 => ?_, fun htrig => ?_⟩
  · rw [tick_sentTo, if_pos hi, ledOutput_oneShot_idle _ _ _ (by rw [hsh]; exact h1)
      (by rw [← hl]; exact hce)]
    rfl
  · by_contra hedge
    obtain ⟨n1, _⟩ := tickLed_no_edge (b.leds i) h1 hce0 hedge
    rw [hl, n1] at hce1
    exact absurd hce1 (by decide)
  · obtain ⟨b1, hrun1, hn1⟩ := run_isSome (Call.tick rnd :: cs1) b hn
    obtain ⟨b2, hrun2, hn2⟩ := run_isSome cs2 b1 (by omega)
    refine ⟨b1, b2, hrun1, hrun2, fun hended => ?_⟩
    obtain ⟨b0, hstep, hrest⟩ := run_cons b _ cs1 b1 hrun1
    have hb0 : b0 = (tick b rnd).1 := by
      simp only [step, Option.some.injEq] at hstep
      exact hstep.symm
    have hn0 : b0.numLeds = b.numLeds := by rw [hb0, tick_numLeds]
    have hl0 : b0.leds i = tickLed (b.leds i) := by rw [hb0, hl]
    have hcsA : ∀ c ∈ cs1, c.setsPatternOf b0.numLeds i = false
        ∧ c.keepsTriggerHigh b0.numLeds i = true := fun c hc => by
      rw [hn0]; exact hcs c (List.mem_append_left _ hc)
    have hcsB : ∀ c ∈ cs2, c.setsPatternOf b1.numLeds i = false
        ∧ c.keepsTriggerHigh b1.numLeds i = true := fun c hc => by
      rw [hn1]; exact hcs c (List.mem_append_right _ hc)
    obtain ⟨s1, t1, p1, _⟩ := run_no_edge cs1 b0 b1 i False 0 (by omega) hcsA
      (by rw [hl0, hsh]; exact h1)
      (by rw [hl0, (tickLed_fields (b.leds i)).2.2.2.2]; exact htrig)
      (by rw [hl0, tickLed_prev _ h1]; exact htrig)
      (fun h => absurd h not_false) hrest
    obtain ⟨s2, t2, p2, e2⟩ := run_no_edge cs2 b1 b2 i True (b1.leds i).counter (by omega)
      hcsB s1 t1 p1 (fun _ => ⟨hended, rfl⟩) hrun2
    obtain ⟨e3, e4⟩ := e2 trivial
    obtain ⟨n1, n2⟩ := tickLed_no_edge (b2.leds i) s2 e3 (fun h => by omega)
    have hi2 : i < b2.numLeds := by omega
    have hl2 : (tick b2 rnd2).1.leds i = tickLed (b2.leds i) := by rw [tick_leds, if_pos hi2]
    refine ⟨e3, e4, by rw [hl2]; exact n1, by rw [hl2]; exact n2.trans e4, ?_⟩
    rw [tick_sentTo, if_pos hi2, ledOutput_oneShot_idle _ _ _
      (by rw [(tickLed_fields (b2.leds i)).2.1]; exact s2) n1]
    rfl

theorem oneShot_stays_idle_witness :
    (((run c10Bank [Call.tick rnd100, Call.tick rnd100]).map
        fun b1 => ((b1.leds 0).changeEnable, (b1.leds 0).counter)) = some (false, 0)
      ∧ 512 ≤ (c10Bank.leds 0).triggerIP)
    ∧ ((((tick c10Bank rnd100).1.leds 0).changeEnable = false →
          sentTo (tick c10Bank rnd100).2 0 = [0])
      ∧ ((c10Bank.leds 0).changeEnable = false →
          ((tick c10Bank rnd100).1.leds 0).changeEnable = true →
          (c10Bank.leds 0).prevTriggerIP < 512 ∧ 512 ≤ (c10Bank.leds 0).triggerIP)
      ∧ (512 ≤ (c10Bank.leds 0).triggerIP →
          ∃ b1 b2, run c10Bank (Call.tick rnd100 :: [Call.tick rnd100]) = some b1
            ∧ run b1 [Call.setTriggerIP 0 700, Call.setRate 0 400, Call.tick rnd100] = some b2
            ∧ ((b1.leds 0).changeEnable = false →
                (b2.leds 0).changeEnable = false
                ∧ (b2.leds 0).counter = (b1.leds 0).counter
                ∧ ((tick b2 rnd100).1.leds 0).changeEnable = false
                ∧ ((tick b2 rnd100).1.leds 0).counter = (b1.leds 0).counter
                ∧ sentTo (tick b2 rnd100).2 0 = [0]))) :=
  ⟨by decide,
    oneShot_stays_idle c10Bank 0 (by decide) (by decide) rnd100 [Call.tick rnd100]
      [Call.setTriggerIP 0 700, Call.setRate 0 400, Call.tick rnd100] rnd100 (by decide)⟩

/-! ## C11 -/

/-- C11. Miss-cycle accounting: for every LED `i = led mod numLeds` and every shape,
with `missLen` 0, 1, 2 or 3, after `setPattern(led, shape, phase)` and any sequence `cs`
of ticks and control-value writes (no further `setPattern` for that LED), `cycle` equals
the number of counter wraps of the LED since `setPattern`, modulo `missLen + 1`; the
same holds after one more `tick`, and in that `tick` the brightness sent for the LED is
exactly 0 whenever this remainder is not 0.  So a live cycle (remainder 0) is followed
by `missLen` miss cycles (remainders 1 to `missLen`) and then by a live one. -/
theorem miss_cycle_accounting (b : Bank) (led shape : Nat) (phase : Int)
    (hn : 0 < b.numLeds) (cs : List Call)
    (hcs : ∀ c ∈ cs, c.setsPatternOf b.numLeds (led % b.numLeds) = false)
    (rnd : Nat → Nat) :
    missLen shape ≤ 3
    ∧ ∃ b1 b2, setPattern b led shape phase = some b1 ∧ run b1 cs = some b2
      ∧ (b2.leds (led % b.numLeds)).cycle
          = wrapCount b1 (led % b.numLeds) cs % (missLen shape + 1)
      ∧ ((tick b2 rnd).1.leds (led % b.numLeds)).cycle
          = wrapCount b1 (led % b.numLeds) (cs ++ [Call.tick rnd]) % (missLen shape + 1)
      ∧ (wrapCount b1 (led % b.numLeds) (cs ++ [Call.tick rnd]) % (missLen shape + 1) ≠ 0 →
          sentTo (tick b2 rnd).2 (led % b.numLeds) = [0]) := by
  have hi : led % b.numLeds < b.numLeds := Nat.mod_lt _ hn
  obtain ⟨b1, hb1⟩ : ∃ b1, setPattern b led shape phase = some b1 :=
    ⟨_, setter_some b led _ hn⟩
  have hn1 : b1.numLeds = b.numLeds := step_numLeds b b1 (.setPattern led shape phase) hb1
  have hl1 := step_led b b1 (.setPattern led shape phase) (led % b.numLeds) hi hb1
  simp only [Call.onLed, if_true] at hl1
  obtain ⟨b2, hb2, hn2⟩ := run_isSome cs b1 (by omega)
  have hb3 := run_append_tick cs b1 b2 rnd hb2
  have hcs3 : ∀ c ∈ cs ++ [Call.tick rnd],
      c.setsPatternOf b1.numLeds (led % b.numLeds) = false := by
    intro c hc
    rcases List.mem_append.mp hc with h | h
    · rw [hn1]; exact hcs c h
    · simp only [List.mem_singleton] at h
      subst h
      rfl
  obtain ⟨_, r2⟩ := run_cycle_mod cs b1 b2 (led % b.numLeds) shape 0 (by omega)
    (by rw [hn1]; exact hcs) (by rw [hl1]) (by rw [hl1]; simp) hb2
  obtain ⟨_, r3⟩ := run_cycle_mod (cs ++ [Call.tick rnd]) b1 (tick b2 rnd).1
    (led % b.numLeds) shape 0 (by omega) hcs3 (by rw [hl1]) (by rw [hl1]; simp) hb3
  rw [Nat.zero_add] at r2 r3
  refine ⟨missLen_le shape, b1, b2, hb1, hb2, r2, r3, fun hne => ?_⟩
  have hi2 : led % b.numLeds < b2.numLeds := by omega
  rw [tick_sentTo, if_pos hi2]
  have hl3 : (tick b2 rnd).1.leds (led % b.numLeds) = tickLed (b2.leds (led % b.numLeds)) := by
    rw [tick_leds, if_pos hi2]
  rw [ledOutput_miss _ _ _ (by rw [← hl3, r3]; exact hne)]
  rfl

theorem miss_cycle_accounting_witness :
    (missLen 19 = 1
      ∧ wrapCount ((setPattern twoLeds 1 19 0).getD zeroMem) (1 % twoLeds.numLeds)
          (c11Calls ++ [Call.tick rnd100]) = 1)
    ∧ (missLen 19 ≤ 3
      ∧ ∃ b1 b2, setPattern twoLeds 1 19 0 = some b1 ∧ run b1 c11Calls = some b2
        ∧ (b2.leds (1 % twoLeds.numLeds)).cycle
            = wrapCount b1 (1 % twoLeds.numLeds) c11Calls % (missLen 19 + 1)
        ∧ ((tick b2 rnd100).1.leds (1 % twoLeds.numLeds)).cycle
            = wrapCount b1 (1 % twoLeds.numLeds) (c11Calls ++ [Call.tick rnd100])
                % (missLen 19 + 1)
        ∧ (wrapCount b1 (1 % twoLeds.numLeds) (c11Calls ++ [Call.tick rnd100])
              % (missLen 19 + 1) ≠ 0 →
            sentTo (tick b2 rnd100).2 (1 % twoLeds.numLeds) = [0])) :=
  ⟨by decide, miss_cycle_accounting twoLeds 1 19 0 (by decide) c11Calls (by decide) rnd100⟩

/-! ## C12 -/

/-- C12. GATEOUT freeze and resume, for a LED `i` with GATEOUT set and one-shot clear.
(1) A `tick` evaluated with `triggerIP < 512` sends exactly the brightness 0 for the LED
and leaves its counter and cycle unchanged.  (2) Let the trigger value be below 512 in
state `b`, let `cs` be any ticks and control writes that keep it below 512, and let
`cs2` be control writes after them (no `setPattern` for the LED anywhere): counter and
cycle are still those of `b`, and if the trigger value is then 512 or more, the next
`tick` advances the counter from the value it had in `b`: the new counter is that
value plus the rate, less 2048 if the sum has reached 2048. -/
theorem gateout_freeze_resume (b : Bank) (i : Nat) (hi : i < b.numLeds)
    (hgo : hasBits (b.leds i).shape SBC_TG_GATEOUT = true)
    (h1 : hasBits (b.leds i).shape SBC_TG_1SHOT = false)
    (htrig : (b.leds i).triggerIP < 512)
    (rnd : Nat → Nat) (cs cs2 : List Call) (rnd2 : Nat → Nat)
    (hcs : ∀ c ∈ cs, c.setsPatternOf b.numLeds i = false
      ∧ c.keepsTriggerLow b.numLeds i = true)
    (hcs2 : ∀ c ∈ cs2, c.setsPatternOf b.numLeds i = false ∧ c.isTick = false) :
    (sentTo (tick b rnd).2 i = [0]
      ∧ ((tick b rnd).1.leds i).counter = (b.leds i).counter
      ∧ ((tick b rnd).1.leds i).cycle = (b.leds i).cycle)
    ∧ ∃ b1 b2, run b cs = some b1 ∧ run b1 cs2 = some b2
      ∧ (b1.leds i).counter = (b.leds i).counter ∧ (b1.leds i).cycle = (b.leds i).cycle
      ∧ (b2.leds i).counter = (b.leds i).counter ∧ (b2.leds i).cycle = (b.leds i).cycle
      ∧ (512 ≤ (b2.leds i).triggerIP →
          ((tick b2 rnd2).1.leds i).counter
            = if int16 ((b.leds i).counter + (b2.leds i).rate) ≥ 2048 then
                int16 ((b.leds i).counter + (b2.leds i).rate) - 2048
              else int16 ((b.leds i).counter + (b2.leds i).rate)) := by
  have hn : 0 < b.numLeds := by omega
  have hl : (tick b rnd).1.leds i = tickLed (b.leds i) := by rw [tick_leds, if_pos hi]
  obtain ⟨g1, g2, g3⟩ := tickLed_gate_closed (b.leds i) h1 htrig
  have hsh : (tickLed (b.leds i)).shape = (b.leds i).shape := (tickLed_fields (b.leds i)).2.1
  refine ⟨⟨?_, by rw [hl]; exact g2, by rw [hl]; exact g3⟩, ?_⟩
  · rw [tick_sentTo, if_pos hi, ledOutput_gate_closed _ _ _ (by rw [hsh]; exact hgo)
      (by rw [hsh]; exact h1) g1]
    rfl
  · obtain ⟨b1, hrun1, hn1⟩ := run_isSome cs b hn
    obtain ⟨b2, hrun2, hn2⟩ := run_isSome cs2 b1 (by omega)
    obtain ⟨s1, _, c1, k1⟩ := run_gate_closed cs b b1 i hi hcs h1 htrig hrun1
    obtain ⟨s2, c2, k2⟩ := run_control cs2 b1 b2 i (by omega)
      (by rw [hn1]; exact hcs2) hrun2
    refine ⟨b1, b2, hrun1, hrun2, c1, k1, c2.trans c1, k2.trans k1, fun hopen => ?_⟩
    rw [tick_leds, if_pos (by omega),
      tickLed_gate_open (b2.leds i) (by rw [s2, s1]; exact h1) hopen, c2, c1]

theorem gateout_freeze_resume_witness :
    ((c12Bank.leds 0).counter = 765
      ∧ ((run c12Bank [Call.tick rnd100, Call.setRate 0 40, Call.tick rnd100,
            Call.setTriggerIP 0 700, Call.setRate 0 1023]).map
          fun b2 => ((b2.leds 0).triggerIP, ((tick b2 rnd100).1.leds 0).counter))
          = some (700, 1020))
    ∧ ((sentTo (tick c12Bank rnd100).2 0 = [0]
        ∧ ((tick c12Bank rnd100).1.leds 0).counter = (c12Bank.leds 0).counter
        ∧ ((tick c12Bank rnd100).1.leds 0).cycle = (c12Bank.leds 0).cycle)
      ∧ ∃ b1 b2, run c12Bank [Call.tick rnd100, Call.setRate 0 40, Call.tick rnd100] = some b1
        ∧ run b1 [Call.setTriggerIP 0 700, Call.setRate 0 1023] = some b2
        ∧ (b1.leds 0).counter = (c12Bank.leds 0).counter
        ∧ (b1.leds 0).cycle = (c12Bank.leds 0).cycle
        ∧ (b2.leds 0).counter = (c12Bank.leds 0).counter
        ∧ (b2.leds 0).cycle = (c12Bank.leds 0).cycle
        ∧ (512 ≤ (b2.leds 0).triggerIP →
            ((tick b2 rnd100).1.leds 0).counter
              = if int16 ((c12Bank.leds 0).counter + (b2.leds 0).rate) ≥ 2048 then
                  int16 ((c12Bank.leds 0).counter + (b2.leds 0).rate) - 2048
                else int16 ((c12Bank.leds 0).counter + (b2.leds 0).rate))) :=
  ⟨by decide,
    gateout_freeze_resume c12Bank 0 (by decide) (by decide) (by decide) (by decide) rnd100
      [Call.tick rnd100, Call.setRate 0 40, Call.tick rnd100]
      [Call.setTriggerIP 0 700, Call.setRate 0 1023] rnd100 (by decide) (by decide)⟩

/-! ## C13 -/

/-- C13. INVERT relation: let two LED states have the same counter in 0..2047, the same
scale in 0..255 and the same waveform selector other than RANDOM, the first without and
the second with the INVERT bit, neither in an override case.  Both are sent a
brightness computed from the same base sample; when the scaled value `(base*scale)>>8`
is not 0 the brightness with INVERT is 255 minus the brightness without; when it is 0
the floor rule makes the brightness without INVERT 1 and the one with INVERT is 255.
The inversion `255 - ((base*scale)>>8)` itself is never 0 in these ranges. -/
theorem invert_relation (l0 l1 : Led) (cycled : Bool) (raw : Nat)
    (hsel : l1.shape &&& 7 = l0.shape &&& 7)
    (hdet : l0.shape &&& 7 ≠ SBC_WAVESHAPE_RND)
    (hn : hasBits l0.shape SBC_WSMOD_INVERT = false)
    (hi : hasBits l1.shape SBC_WSMOD_INVERT = true)
    (hc : l1.counter = l0.counter) (hs : l1.scale = l0.scale)
    (hcr : 0 ≤ l0.counter ∧ l0.counter ≤ 2047) (hsr : 0 ≤ l0.scale ∧ l0.scale ≤ 255)
    (ho0 : ¬ OverrideCase l0) (ho1 : ¬ OverrideCase l1) :
    ∃ base v0 v1, waveBase l0 cycled raw = some base ∧ waveBase l1 cycled raw = some base
      ∧ ledOutput l0 cycled raw = some v0 ∧ ledOutput l1 cycled raw = some v1
      ∧ (shr (base * l0.scale) 8 ≠ 0 → v1 = 255 - v0)
      ∧ (shr (base * l0.scale) 8 = 0 → v0 = 1 ∧ v1 = 255)
      ∧ 255 - shr (base * l0.scale) 8 ≠ 0 := by
  obtain ⟨base, hb⟩ := waveBase_det l0 cycled raw hdet
  have hb1 : waveBase l1 cycled raw = some base := by
    rw [waveBase_congr l0 l1 cycled raw hsel hc]; exact hb
  obtain ⟨r1, r2, r3, r4⟩ := scaled_range base l0.scale
    (waveBase_range l0 cycled raw base hcr hb) hsr
  refine ⟨base, shapeOutput l0 base, shapeOutput l1 base, hb, hb1, ?_, ?_, ?_, ?_, ?_⟩
  · rw [ledOutput_live _ _ _ ho0, hb]; rfl
  · rw [ledOutput_live _ _ _ ho1, hb1]; rfl
  · intro hne
    rw [shapeOutput_plain l0 base hn, shapeOutput_inverted l1 base hi, hs, r3, r4,
      if_neg hne, if_neg (by omega)]
  · intro he
    rw [shapeOutput_plain l0 base hn, shapeOutput_inverted l1 base hi, hs, r3, r4, he]
    simp
  · omega

theorem invert_relation_witness :
    (ledOutput sawLed false 0 = some 97 ∧ ledOutput sawLedInverted false 0 = some 158)
    ∧ ∃ base v0 v1, waveBase sawLed false 0 = some base
      ∧ waveBase sawLedInverted false 0 = some base
      ∧ ledOutput sawLed false 0 = some v0 ∧ ledOutput sawLedInverted false 0 = some v1
      ∧ (shr (base * sawLed.scale) 8 ≠ 0 → v1 = 255 - v0)
      ∧ (shr (base * sawLed.scale) 8 = 0 → v0 = 1 ∧ v1 = 255)
      ∧ 255 - shr (base * sawLed.scale) 8 ≠ 0 :=
  ⟨by decide,
    invert_relation sawLed sawLedInverted false 0 (by decide) (by decide) (by decide)
      (by decide) (by decide) (by decide) (by decide) (by decide) (by decide) (by decide)⟩

/-! ## C14 -/

/-- C14. Waveform table: for every counter in 0..2047 the base sample computed in the
third loop from the three low bits of the shape is: OFF 0; ON 255; SAW `counter >> 3`;
TRIANGLE `counter >> 2` below 1024 and `(2047 - counter) >> 2` from 1024 on; SQUARE 255
below 1024, else 0; PULSE 255 below 410, else 0; SPIKE `min(255, (counter >> 6)^2)`
below 1024 and `min(255, (31 - (counter >> 6))^2)` from 1024 on (with `pow(x, 2)` at its
exact value); the shifts are divisions by 8, 4 and 64 rounded down, and in each of
these cases the base lies in 0..255. -/
theorem waveform_table (l : Led) (cycled : Bool) (raw : Nat)
    (hc : 0 ≤ l.counter ∧ l.counter ≤ 2047) :
    (l.shape &&& 7 = SBC_WAVESHAPE_OFF → waveBase l cycled raw = some 0)
    ∧ (l.shape &&& 7 = SBC_WAVESHAPE_ON → waveBase l cycled raw = some 255)
    ∧ (l.shape &&& 7 = SBC_WAVESHAPE_SAW → waveBase l cycled raw = some (shr l.counter 3))
    ∧ (l.shape &&& 7 = SBC_WAVESHAPE_TRI →
        waveBase l cycled raw
          = some (if l.counter < 1024 then shr l.counter 2 else shr (2047 - l.counter) 2))
    ∧ (l.shape &&& 7 = SBC_WAVESHAPE_SQU →
        waveBase l cycled raw = some (if l.counter < 1024 then 255 else 0))
    ∧ (l.shape &&& 7 = SBC_WAVESHAPE_PULSE →
        waveBase l cycled raw = some (if l.counter < 410 then 255 else 0))
    ∧ (l.shape &&& 7 = SBC_WAVESHAPE_SPIKE →
        waveBase l cycled raw
          = some (if l.counter < 1024 then min 255 ((shr l.counter 6) ^ 2)
                  else min 255 ((31 - shr l.counter 6) ^ 2)))
    ∧ (shr l.counter 3 = l.counter / 8 ∧ shr l.counter 2 = l.counter / 4
        ∧ shr (2047 - l.counter) 2 = (2047 - l.counter) / 4
        ∧ shr l.counter 6 = l.counter / 64)
    ∧ (l.shape &&& 7 ≠ SBC_WAVESHAPE_RND →
        ∃ base, waveBase l cycled raw = some base ∧ 0 ≤ base ∧ base ≤ 255) := by
  obtain ⟨hc1, hc2⟩ := hc
  have e6 : shr l.counter 6 = l.counter / 64 := by rw [shr_eq_div]; norm_num
  have e16 : int16 (2047 - l.counter) = 2047 - l.counter := by unfold int16; omega
  have e16b : int16 (31 - shr l.counter 6) = 31 - shr l.counter 6 := by
    rw [e6]; unfold int16; omega
  have hclamp : ∀ x : Int, (if x * x > 255 then 255 else x * x) = min 255 (x ^ 2) := by
    intro x
    rw [pow_two]
    split
    · next h => exact (min_eq_left (le_of_lt h)).symm
    · next h => exact (min_eq_right (not_lt.mp h)).symm
  have hsome : ∀ (p : Prop) [Decidable p] (x y : Int),
      (if p then some x else some y) = some (if p then x else y) := by
    intro p _ x y
    split <;> rfl
  refine ⟨?_, ?_, ?_, ?_, ?_, ?_, ?_, ?_, ?_⟩
  · intro h
    simp [waveBase, h]
  · intro h
    simp [waveBase, h, SBC_WAVESHAPE_ON, SBC_WAVESHAPE_OFF, SBC_WAVESHAPE_SAW,
      SBC_WAVESHAPE_TRI, SBC_WAVESHAPE_SQU, SBC_WAVESHAPE_PULSE, SBC_WAVESHAPE_SPIKE,
      SBC_WAVESHAPE_RND]
  · intro h
    simp [waveBase, h, SBC_WAVESHAPE_OFF, SBC_WAVESHAPE_SAW]
  · intro h
    simp [waveBase, h, e16, hsome, SBC_WAVESHAPE_OFF, SBC_WAVESHAPE_SAW, SBC_WAVESHAPE_TRI]
  · intro h
    simp [waveBase, h, hsome, SBC_WAVESHAPE_OFF, SBC_WAVESHAPE_SAW, SBC_WAVESHAPE_TRI,
      SBC_WAVESHAPE_SQU]
  · intro h
    simp [waveBase, h, hsome, SBC_WAVESHAPE_OFF, SBC_WAVESHAPE_SAW, SBC_WAVESHAPE_TRI,
      SBC_WAVESHAPE_SQU, SBC_WAVESHAPE_PULSE]
  · intro h
    have hw : waveBase l cycled raw
        = some (if (if l.counter < 1024 then pow2 (shr l.counter 6)
                    else pow2 (int16 (31 - shr l.counter 6))) > 255 then 255
                else (if l.counter < 1024 then pow2 (shr l.counter 6)
                    else pow2 (int16 (31 - shr l.counter 6)))) := by
      simp [waveBase, h, SBC_WAVESHAPE_OFF, SBC_WAVESHAPE_SAW, SBC_WAVESHAPE_TRI,
        SBC_WAVESHAPE_SQU, SBC_WAVESHAPE_PULSE, SBC_WAVESHAPE_SPIKE]
    rw [hw, e16b]
    by_cases hlt : l.counter < 1024
    · simp only [hlt, if_true, pow2]
      rw [hclamp]
    · simp only [hlt, if_false, pow2]
      rw [hclamp]
  · refine ⟨?_, ?_, ?_, e6⟩
    · rw [shr_eq_div]; norm_num
    · rw [shr_eq_div]; norm_num
    · rw [shr_eq_div]; norm_num
  · intro hdet
    obtain ⟨base, hb⟩ := waveBase_det l cycled raw hdet
    exact ⟨base, hb, waveBase_range l cycled raw base ⟨hc1, hc2⟩ hb⟩

theorem waveform_table_witness :
    (waveBase spikeLed false 0 = some 64 ∧ shr spikeLed.counter 6 = 23)
    ∧ ((spikeLed.shape &&& 7 = SBC_WAVESHAPE_OFF → waveBase spikeLed false 0 = some 0)
      ∧ (spikeLed.shape &&& 7 = SBC_WAVESHAPE_ON → waveBase spikeLed false 0 = some 255)
      ∧ (spikeLed.shape &&& 7 = SBC_WAVESHAPE_SAW →
          waveBase spikeLed false 0 = some (shr spikeLed.counter 3))
      ∧ (spikeLed.shape &&& 7 = SBC_WAVESHAPE_TRI →
          waveBase spikeLed false 0
            = some (if spikeLed.counter < 1024 then shr spikeLed.counter 2
                    else shr (2047 - spikeLed.counter) 2))
      ∧ (spikeLed.shape &&& 7 = SBC_WAVESHAPE_SQU →
          waveBase spikeLed false 0 = some (if spikeLed.counter < 1024 then 255 else 0))
      ∧ (spikeLed.shape &&& 7 = SBC_WAVESHAPE_PULSE →
          waveBase spikeLed false 0 = some (if spikeLed.counter < 410 then 255 else 0))
      ∧ (spikeLed.shape &&& 7 = SBC_WAVESHAPE_SPIKE →
          waveBase spikeLed false 0
            = some (if spikeLed.counter < 1024 then min 255 ((shr spikeLed.counter 6) ^ 2)
                    else min 255 ((31 - shr spikeLed.counter 6) ^ 2)))
      ∧ (shr spikeLed.counter 3 = spikeLed.counter / 8
          ∧ shr spikeLed.counter 2 = spikeLed.counter / 4
          ∧ shr (2047 - spikeLed.counter) 2 = (2047 - spikeLed.counter) / 4
          ∧ shr spikeLed.counter 6 = spikeLed.counter / 64)
      ∧ (spikeLed.shape &&& 7 ≠ SBC_WAVESHAPE_RND →
          ∃ base, waveBase spikeLed false 0 = some base ∧ 0 ≤ base ∧ base ≤ 255)) :=
  ⟨by decide, waveform_table spikeLed false 0 (by decide)⟩

/-! ## C15 -/

/-- C15, evaluation at the failing input.  After the constructor LED 0 has the shape
`SBC_WAVESHAPE_OFF` with no modifier and no trigger bit, and `tick` sends the brightness
1 for it, not 0; the same with full scale and the gate open.  No override case holds, the
base sample 0 scales to 0 and the floor boost raises it to 1. -/
theorem off_is_sent_one :
    ((ShapedBrightnessController zeroMem 1).leds 0).shape = SBC_WAVESHAPE_OFF
    ∧ (tick (ShapedBrightnessController zeroMem 1) rnd100).2 = [(1, 0)]
    ∧ ((run (ShapedBrightnessController zeroMem 1)
          [Call.setScale 0 1023, Call.setRate 0 1023, Call.setTriggerIP 0 600]).map
        fun b => (((b.leds 0).shape, (b.leds 0).scale), (tick b rnd100).2))
        = some ((0, 255), [(1, 0)]) := by
  decide

/-! ## C16 -/

/-- C16, evaluation at the failing input.  In `c16Bank` the first `tick` starts the shot
of LED 0 and the second `tick` ends it (`changeEnable` goes from true to false); the
stored trigger value is still 600 at the end of that `tick`, not 0. -/
theorem trigger_value_not_cleared :
    hasBits (c16Bank.leds 0).shape SBC_TG_1SHOT = true
    ∧ ((run c16Bank [Call.tick rnd100]).map
        fun b => ((b.leds 0).changeEnable, (b.leds 0).triggerIP)) = some (true, 600)
    ∧ ((run c16Bank [Call.tick rnd100, Call.tick rnd100]).map
        fun b => ((b.leds 0).changeEnable, (b.leds 0).triggerIP)) = some (false, 600) := by
  decide

/-! ## C17 -/

/-- C17, evaluation at the failing input.  `setPattern(0, SAW, -1)` stores phase -1 and
counter -1, and `setPattern(0, SAW, -2049)` does the same: the remainder `phase%2048` of
C keeps the sign of a negative phase.  A phase of 2048 or more is reduced into range
(5000 gives 904). -/
theorem negative_phase_kept :
    ((setPattern twoLeds 0 1 (-1)).map fun b => ((b.leds 0).phase, (b.leds 0).counter))
      = some (-1, -1)
    ∧ ((setPattern twoLeds 0 1 (-2049)).map fun b => ((b.leds 0).phase, (b.leds 0).counter))
      = some (-1, -1)
    ∧ ((setPattern twoLeds 0 1 5000).map fun b => ((b.leds 0).phase, (b.leds 0).counter))
      = some (904, 904) := by
  decide

/-! ## C18 -/

/-- C18, counterexample.  A bank constructed with a requested LED count of 0 has
`numLeds = 0`, and in each of the four setters the statement `led=led%_numLeds` divides
by zero: none of them completes. -/
theorem setters_fault_without_leds :
    (ShapedBrightnessController zeroMem 0).numLeds = 0
    ∧ (ledIndex (ShapedBrightnessController zeroMem 0) 5).isSome = false
    ∧ (setRate (ShapedBrightnessController zeroMem 0) 5 100).isSome = false
    ∧ (setScale (ShapedBrightnessController zeroMem 0) 5 100).isSome = false
    ∧ (setTriggerIP (ShapedBrightnessController zeroMem 0) 5 100).isSome = false
    ∧ (setPattern (ShapedBrightnessController zeroMem 0) 5 1 100).isSome = false := by
  decide

/-- C18, amended.  For every bank produced by the constructor with a requested LED
count of at least 1 (`numLeds = min(requested, SBC_MAX_LEDS)`, so between 1 and
`SBC_MAX_LEDS`) and every led index, `setRate`, `setScale`, `setTriggerIP` and
`setPattern` complete: the slot index `led mod numLeds` is defined and is less than
`numLeds`. -/
theorem setters_never_fault (mem : Bank) (requested led shape : Nat) (val phase : Int)
    (hreq : 1 ≤ requested) :
    (ShapedBrightnessController mem requested).numLeds = min requested SBC_MAX_LEDS
    ∧ 1 ≤ (ShapedBrightnessController mem requested).numLeds
    ∧ (ShapedBrightnessController mem requested).numLeds ≤ SBC_MAX_LEDS
    ∧ ledIndex (ShapedBrightnessController mem requested) led
        = some (led % (ShapedBrightnessController mem requested).numLeds)
    ∧ led % (ShapedBrightnessController mem requested).numLeds
        < (ShapedBrightnessController mem requested).numLeds
    ∧ (setRate (ShapedBrightnessController mem requested) led val).isSome = true
    ∧ (setScale (ShapedBrightnessController mem requested) led val).isSome = true
    ∧ (setTriggerIP (ShapedBrightnessController mem requested) led val).isSome = true
    ∧ (setPattern (ShapedBrightnessController mem requested) led shape phase).isSome = true := by
  have hnum := ctor_numLeds mem requested
  have hmin : (ShapedBrightnessController mem requested).numLeds
      = min requested SBC_MAX_LEDS := by
    rw [hnum]
    unfold SBC_MAX_LEDS
    split <;> omega
  have hpos : 1 ≤ (ShapedBrightnessController mem requested).numLeds := by
    rw [hmin]; unfold SBC_MAX_LEDS; omega
  have hle : (ShapedBrightnessController mem requested).numLeds ≤ SBC_MAX_LEDS := by
    rw [hmin]; exact Nat.min_le_right _ _
  have hidx := ledIndex_some (ShapedBrightnessController mem requested) led hpos
  refine ⟨hmin, hpos, hle, hidx, Nat.mod_lt _ hpos, ?_, ?_, ?_, ?_⟩
  · simp [setRate, hidx]
  · simp [setScale, hidx]
  · simp [setTriggerIP, hidx]
  · simp [setPattern, hidx]

theorem setters_never_fault_witness :
    (ShapedBrightnessController zeroMem 255).numLeds = min 255 SBC_MAX_LEDS
    ∧ 1 ≤ (ShapedBrightnessController zeroMem 255).numLeds
    ∧ (ShapedBrightnessController zeroMem 255).numLeds ≤ SBC_MAX_LEDS
    ∧ ledIndex (ShapedBrightnessController zeroMem 255) 200
        = some (200 % (ShapedBrightnessController zeroMem 255).numLeds)
    ∧ 200 % (ShapedBrightnessController zeroMem 255).numLeds
        < (ShapedBrightnessController zeroMem 255).numLeds
    ∧ (setRate (ShapedBrightnessController zeroMem 255) 200 1023).isSome = true
    ∧ (setScale (ShapedBrightnessController zeroMem 255) 200 1023).isSome = true
    ∧ (setTriggerIP (ShapedBrightnessController zeroMem 255) 200 1023).isSome = true
    ∧ (setPattern (ShapedBrightnessController zeroMem 255) 200 9 2047).isSome = true :=
  setters_never_fault zeroMem 255 200 9 1023 2047 (by decide)

/-! ## C19 -/

/-- C19, evaluation at the failing input.  On a bank of two LEDs `setPattern(3, 9, 100)`
writes LED `3 mod 2 = 1`, but `getPatternProgBytes(3)` reads the cells with index 3,
which no method has written: it gives `[0, 0, 0, 0]` on zeroed memory, while
`getPatternProgBytes(1)` gives `[9, 0, 0, 100]`. -/
theorem encode_does_not_wrap :
    c19Bank.numLeds = 2
    ∧ (c19Bank.leds 1).shape = 9 ∧ (c19Bank.leds 1).phase = 100
    ∧ getPatternProgBytes c19Bank 3 = [0, 0, 0, 0]
    ∧ getPatternProgBytes c19Bank (3 % c19Bank.numLeds) = [9, 0, 0, 100]
    ∧ getPatternProgBytes c19Bank 3 ≠ getPatternProgBytes c19Bank (3 % c19Bank.numLeds) := by
  decide

/-! ## C20 -/

/-- C20. SAW output is a monotone ramp: for a LED with waveform SAW, no INVERT, no
override case and a scale in 0..255, the brightness sent is non-decreasing in the
counter over 0..2047 (`c1 <= c2` implies `out(c1) <= out(c2)`); at counter 0 the
brightness sent is 1 (the floor) and at counter 2040 the base sample is 255. -/
theorem saw_monotone (l : Led) (cycled : Bool) (raw : Nat) (c1 c2 : Int)
    (hsaw : l.shape &&& 7 = SBC_WAVESHAPE_SAW)
    (hn : hasBits l.shape SBC_WSMOD_INVERT = false)
    (hov : ¬ OverrideCase l) (hs : 0 ≤ l.scale ∧ l.scale ≤ 255)
    (h1 : 0 ≤ c1) (h12 : c1 ≤ c2) (h2 : c2 ≤ 2047) :
    (∃ v1 v2, ledOutput { l with counter := c1 } cycled raw = some v1
      ∧ ledOutput { l with counter := c2 } cycled raw = some v2 ∧ v1 ≤ v2)
    ∧ ledOutput { l with counter := 0 } cycled raw = some 1
    ∧ waveBase { l with counter := 2040 } cycled raw = some 255 := by
  have hov2 : ∀ c : Int, ¬ OverrideCase { l with counter := c } := fun c => hov
  have hbase : ∀ c : Int, waveBase { l with counter := c } cycled raw = some (shr c 3) := by
    intro c
    simp [waveBase, hsaw, SBC_WAVESHAPE_OFF, SBC_WAVESHAPE_SAW]
  have hout : ∀ c : Int, ledOutput { l with counter := c } cycled raw
      = some (if int16 (shr (shr c 3 * l.scale) 8) = 0 then 1
              else int16 (shr (shr c 3 * l.scale) 8)) := by
    intro c
    rw [ledOutput_live _ _ _ (hov2 c), hbase c]
    simp only [Option.map_some']
    rw [shapeOutput_plain { l with counter := c } _ hn]
  have hrange : ∀ c : Int, 0 ≤ c → c ≤ 2047 → 0 ≤ shr c 3 ∧ shr c 3 ≤ 255 := by
    intro c h0 h1
    rw [shr_eq_div]
    norm_num
    omega
  refine ⟨⟨_, _, hout c1, hout c2, ?_⟩, ?_, ?_⟩
  · obtain ⟨a1, a2, a3, _⟩ := scaled_range (shr c1 3) l.scale (hrange c1 h1 (by omega)) hs
    obtain ⟨b1, b2, b3, _⟩ := scaled_range (shr c2 3) l.scale (hrange c2 (by omega) h2) hs
    have hmono : shr (shr c1 3 * l.scale) 8 ≤ shr (shr c2 3 * l.scale) 8 := by
      apply scaled_mono _ _ _ _ hs.1
      rw [shr_eq_div, shr_eq_div]
      exact Int.ediv_le_ediv (by norm_num) h12
    rw [a3, b3]
    split <;> split <;> omega
  · rw [hout 0]
    have e : shr (0 : Int) 3 = 0 := by rw [shr_eq_div]; norm_num
    have e2 : shr (0 : Int) 8 = 0 := by rw [shr_eq_div]; norm_num
    rw [e, zero_mul, e2]
    rfl
  · rw [hbase 2040]
    have e : shr (2040 : Int) 3 = 255 := by rw [shr_eq_div]; norm_num
    rw [e]

theorem saw_monotone_witness :
    (ledOutput { sawLed with counter := 8 } false 0 = some 1
      ∧ ledOutput { sawLed with counter := 2047 } false 0 = some 199)
    ∧ ((∃ v1 v2, ledOutput { sawLed with counter := 8 } false 0 = some v1
        ∧ ledOutput { sawLed with counter := 2047 } false 0 = some v2 ∧ v1 ≤ v2)
      ∧ ledOutput { sawLed with counter := 0 } false 0 = some 1
      ∧ waveBase { sawLed with counter := 2040 } false 0 = some 255) :=
  ⟨by decide,
    saw_monotone sawLed false 0 8 2047 (by decide) (by decide) (by decide) (by decide)
      (by decide) (by decide) (by decide)⟩


end SBC
